import Mathlib

set_option linter.unnecessarySeqFocus false

/-!
Verification development for the incremental pack build orchestrator
(`PackBuilder` / `BuildSystem` / `testInclusion` / `resolveAndValidateUserConfig`).

The TypeScript sources are shallowly embedded as pure Lean functions:

* Filesystem paths are lists of segments (`Path`); `path.resolve` is the
  identity on these already-absolute, already-normalised paths, and
  `String.startsWith` on resolved paths becomes segment-list prefix testing.
* The on-disk source tree is a finite tree (`FSTree`) mapping entry names to
  files (with mtime and content) or subdirectories.
* The external `minimatch` glob matcher is an explicit function parameter
  `m : String → String → Bool` (relative path, pattern).
* Asynchronous code is sequentialised: the concurrent per-entry promises of
  one directory are processed in entry order, which only permutes the order
  (never the multiset) of detected changes.
* The cancellation token is modelled by its sampled value for the attempt;
  the fine-grained interleaving of `BuildSystem.rebuild` with an in-flight
  attempt is modelled separately as a small-step transition system.
-/

namespace Builder

/-- A filesystem path, as a list of segments (already resolved/normalised). -/
abbrev Path := List String

/-- Node-style join of path segments with `/` (after `replaceAll("\\", "/")`). -/
def joinPath (p : Path) : String := String.intercalate "/" p

/-! ## `testInclusion` (src/unnamed/part_007)

`path.resolve` is the identity on the already-absolute segment lists, and
`fullPath.startsWith(baseDir)` becomes segment-prefix testing. -/

/-- Traversal-level embedding of `testInclusion(path, baseDir, include,
exclude)` on segment lists: under-root test, then
`exclude.some(minimatch)`, then
`include === undefined || include.some(minimatch)`.  On the paths the
traversal supplies — exact segment extensions of `srcDir` — the segment
prefix test agrees with the source's string `startsWith`; the
general-input embedding at the string level is `testInclusionStr`
further below. -/
def testInclusion (m : String → String → Bool) (path : Path) (baseDir : Path)
    (inclGlobs : Option (List String)) (exclGlobs : Option (List String)) : Bool :=
  let fullPath := path
  if !baseDir.isPrefixOf fullPath then false
  else
    let relativePath := joinPath (fullPath.drop baseDir.length)
    let isExcluded :=
      match exclGlobs with
      | none => false
      | some pats => pats.any (fun pattern => m relativePath pattern)
    if isExcluded then false
    else
      match inclGlobs with
      | none => true
      | some pats => pats.any (fun pattern => m relativePath pattern)

/-! ## On-disk source tree model

A directory entry is either a regular file (with its `mtimeMs` stat and its
byte content) or a subdirectory; `fs.readdir` returns the entry names of a
directory, `fs.stat` distinguishes files from directories and yields
`mtimeMs`. -/

/-- A node of the on-disk source tree. -/
inductive FSTree where
  | file (mtime : Int) (content : String)
  | dir (entries : List (String × FSTree))
deriving Repr

/-- Size of a tree node (for termination of the worklist traversal). -/
def treeSize : FSTree → Nat
  | .file _ _ => 1
  | .dir entries => 1 + entriesSize entries
where
  /-- Total size of a list of directory entries. -/
  entriesSize : List (String × FSTree) → Nat
  | [] => 0
  | (_, t) :: rest => treeSize t + entriesSize rest

/-- Well-formedness of a directory entry list: entry names are distinct at
every level (as `fs.readdir` guarantees for a real directory). -/
def goodEntries : List (String × FSTree) → Bool
  | [] => true
  | (n, t) :: rest =>
    !(rest.any (fun e => e.1 == n)) && goodTree t && goodEntries rest
where
  /-- Well-formedness of a tree node. -/
  goodTree : FSTree → Bool
  | .file _ _ => true
  | .dir entries => goodEntries entries

/-! ## PackBuilder data model (src/unnamed/part_010, src/src/build/build-config.ts) -/

/-- Pack kind (`PackConfig.type`). -/
inductive PackType where
  | behavior
  | resource
deriving DecidableEq, Repr

/-- Behaviour-pack script options; only their presence matters to the
builder pipeline, the fields are consumed by the external bundler. -/
structure ScriptOptions where
  bundle : Bool := false
  minify : Bool := false
  sourceMap : Bool := false
deriving DecidableEq, Repr

/-- Embedding of `PackConfig` (the fields the builder pipeline reads).
`include`/`exclude` are renamed `inclGlobs`/`exclGlobs` (keyword clash). -/
structure PackConfig where
  type : PackType
  srcDir : Path
  targetDirs : List Path
  inclGlobs : Option (List String) := none
  exclGlobs : Option (List String) := none
  scripts : Option ScriptOptions := none
deriving Repr

/-- Embedding of the per-pack `Cache`: an insertion-ordered mapping from
absolute file path to last-seen `mtimeMs` (JS object iteration order is
insertion order for string keys). -/
abbrev Cache := List (Path × Int)

/-- A `FileChange` kind. -/
inductive ChangeType where
  | add
  | update
  | remove
deriving DecidableEq, Repr

/-- Embedding of `FileChange`. -/
structure FileChange where
  type : ChangeType
  filePath : Path
deriving DecidableEq, Repr

/-- A file discovered (and scope-checked) by the source-tree traversal,
with its stat data. -/
structure Discovered where
  path : Path
  mtime : Int
  content : String
deriving DecidableEq, Repr

/-! ## Source-tree traversal (`detectSourceTreeChanges`, part_010 lines 118-181)

The traversal is breadth-first over a worklist of directories
(`dirSearchQueue`).  For each entry of a directory: paths failing
`shouldInclude` are skipped entirely (note: this test is applied to
directories as well, before descending); directories are appended to the
worklist; files are diff-checked only when no scope limit is in effect or
the file is inside the scope-limit set (`shouldCheck`).  The concurrent
per-entry promises of one directory are sequentialised in entry order. -/

/-- Whether a file path passes the scope-limit check
(`!ctx.limitCheckPaths || ctx.limitCheckPaths.has(fullPath)`). -/
def scopeCheckOk (lim : Option (List Path)) (p : Path) : Bool :=
  match lim with
  | none => true
  | some s => s.contains p

/-- Process the entries of one directory at base path `base`: returns the
discovered (included, scope-checked) files and the included subdirectories
to append to the worklist, in entry order. -/
def processEntries (inc : Path → Bool) (lim : Option (List Path)) (base : Path) :
    List (String × FSTree) → List Discovered × List (Path × List (String × FSTree))
  | [] => ([], [])
  | (name, t) :: rest =>
    let fullPath := base ++ [name]
    let (files, dirs) := processEntries inc lim base rest
    if inc fullPath then
      match t with
      | .dir entries => (files, (fullPath, entries) :: dirs)
      | .file mtime content =>
        if scopeCheckOk lim fullPath then
          (⟨fullPath, mtime, content⟩ :: files, dirs)
        else (files, dirs)
    else (files, dirs)

/-- Measure of the directory worklist for termination. -/
def queueMeasure (q : List (Path × List (String × FSTree))) : Nat :=
  match q with
  | [] => 0
  | e :: rest => 1 + treeSize.entriesSize e.2 + queueMeasure rest

theorem queueMeasure_append (q₁ q₂ : List (Path × List (String × FSTree))) :
    queueMeasure (q₁ ++ q₂) = queueMeasure q₁ + queueMeasure q₂ := by
  induction q₁ with
  | nil => simp [queueMeasure]
  | cons hd tl ih => cases hd; simp [queueMeasure, ih]; omega

theorem processEntries_measure (inc : Path → Bool) (lim : Option (List Path))
    (base : Path) (entries : List (String × FSTree)) :
    queueMeasure (processEntries inc lim base entries).2 ≤ treeSize.entriesSize entries := by
  induction entries with
  | nil => simp [processEntries, queueMeasure]
  | cons hd tl ih =>
    obtain ⟨name, t⟩ := hd
    simp only [processEntries]
    cases t with
    | file mtime content =>
      by_cases hI : inc (base ++ [name]) <;> by_cases hS : scopeCheckOk lim (base ++ [name]) <;>
        simp [hI, hS, treeSize, treeSize.entriesSize] <;> omega
    | dir es =>
      by_cases hI : inc (base ++ [name]) <;>
        simp [hI, queueMeasure, treeSize, treeSize.entriesSize] <;> omega

/-- The breadth-first worklist traversal: pops the head directory, processes
its entries, emits the discovered files and appends the included
subdirectories to the worklist (`dirSearchQueue.push`). -/
def walkQueue (inc : Path → Bool) (lim : Option (List Path)) :
    List (Path × List (String × FSTree)) → List Discovered
  | [] => []
  | e :: rest =>
    (processEntries inc lim e.1 e.2).1 ++
      walkQueue inc lim (rest ++ (processEntries inc lim e.1 e.2).2)
termination_by q => queueMeasure q
decreasing_by
  simp only [queueMeasure, queueMeasure_append]
  have := processEntries_measure inc lim e.1 e.2
  omega

/-- `shouldInclude` of `PackBuilder` (part_010 lines 260-263). -/
def shouldInclude (m : String → String → Bool) (cfg : PackConfig) (srcPath : Path) : Bool :=
  testInclusion m srcPath cfg.srcDir cfg.inclGlobs cfg.exclGlobs

/-- The files discovered and diff-checked by the traversal, in traversal
order.  `disk = none` models `this.config.srcDir` missing on disk: the
initial `fs.readdir` rejects, the error is logged (`Error reading directory
...`) and the worklist loop ends with nothing discovered. -/
def discoveredFiles (m : String → String → Bool) (cfg : PackConfig)
    (lim : Option (List Path)) (disk : Option (List (String × FSTree))) : List Discovered :=
  match disk with
  | none => []
  | some rootEntries => walkQueue (shouldInclude m cfg) lim [(cfg.srcDir, rootEntries)]

/-- The body of `checkFileChanges` for one discovered file: absent from the
old cache ⇒ `add`; present with a different timestamp ⇒ `update`;
otherwise no change. -/
def checkFileChange (lastCache : Cache) (d : Discovered) : Option FileChange :=
  match lastCache.lookup d.path with
  | none => some ⟨.add, d.path⟩
  | some timestamp => if timestamp ≠ d.mtime then some ⟨.update, d.path⟩ else none

/-- The `for (const filePath in this.lastCache)` removal loop
(part_010 lines 173-178).  Note the loop body executes `break` (not
`continue`) at the first cached path outside the scope-limit set, ending
the whole loop. -/
def removeLoop (lim : Option (List Path)) (currentFiles : List Path) :
    Cache → List FileChange
  | [] => []
  | (filePath, _) :: rest =>
    if lim.isSome && !(scopeCheckOk lim filePath) then []
    else
      (if !(currentFiles.contains filePath) then [⟨.remove, filePath⟩] else []) ++
        removeLoop lim currentFiles rest

/-- Embedding of `detectSourceTreeChanges`: traversal-produced
`add`/`update` changes (in traversal order), followed by the removal loop;
`newCache` collects exactly the diff-checked files with their current
timestamps; `currentFiles` collects the diff-checked files. -/
def detectSourceTreeChanges (m : String → String → Bool) (cfg : PackConfig)
    (lastCache : Cache) (lim : Option (List Path))
    (disk : Option (List (String × FSTree))) : List FileChange × Cache :=
  let files := discoveredFiles m cfg lim disk
  let travChanges := files.filterMap (checkFileChange lastCache)
  let newCache : Cache := files.map (fun d => (d.path, d.mtime))
  let currentFiles := files.map (fun d => d.path)
  (travChanges ++ removeLoop lim currentFiles lastCache, newCache)

/-! ## Path helpers (`node:path`) -/

/-- Index of the last `.` in a list of characters. -/
def lastDotPos : List Char → Option Nat
  | [] => none
  | c :: rest =>
    match lastDotPos rest with
    | some i => some (i + 1)
    | none => if c = '.' then some 0 else none

/-- `path.extname` on a basename: the substring from the last `.` on,
empty when there is no dot or the only dot leads the name (dotfiles). -/
def extname (base : String) : String :=
  match lastDotPos base.toList with
  | none => ""
  | some 0 => ""
  | some i => String.mk (base.toList.drop i)

/-- `path.extname` of a full path: only the final segment matters. -/
def pathExtname (p : Path) : String :=
  match p.getLast? with
  | none => ""
  | some base => extname base

/-- The `name` component of `path.parse`: the basename without its
extension. -/
def baseNameNoExt (base : String) : String :=
  String.mk (base.toList.take (base.toList.length - (extname base).toList.length))

/-- Embedding of `getDestPath` (part_010 lines 248-258): optionally swap the
extension of the final segment, take the path relative to `srcDir`, and
re-root it under `outDir`. -/
def getDestPath (srcDir outDir : Path) (srcPath : Path) (destFileExt : Option String) : Path :=
  let base := (srcPath.getLast?).getD ""
  let newBase :=
    match destFileExt with
    | none => base
    | some ext => baseNameNoExt base ++ ext
  let formatted := srcPath.dropLast ++ [newBase]
  outDir ++ formatted.drop srcDir.length

/-! ## JSON values and `JSON.stringify(v, null, 2)`

`JSON5.parse` is the external relaxed-JSON collaborator and is a function
parameter; `JSON.stringify` with a two-space gap is embedded below
(following the ECMA-262 serialisation with `gap = "  "`; the escapes cover
the characters that occur in this development). -/

/-- A JSON value (numbers restricted to integers, which is all the builder
pipeline's claims exercise). -/
inductive JValue where
  | null
  | bool (b : Bool)
  | num (n : Int)
  | str (s : String)
  | arr (elems : List JValue)
  | obj (fields : List (String × JValue))
deriving Repr

/-- Escape one character for a JSON string literal. -/
def escapeJChar (c : Char) : String :=
  if c = '"' then "\\\""
  else if c = '\\' then "\\\\"
  else if c = '\n' then "\\n"
  else if c = '\r' then "\\r"
  else if c = '\t' then "\\t"
  else String.singleton c

/-- Quote a JSON string literal. -/
def quoteJString (s : String) : String :=
  "\"" ++ String.join (s.toList.map escapeJChar) ++ "\""

mutual

/-- `JSON.stringify(v, null, 2)` at nesting indent `ind`: members of a
non-empty object/array each start on a fresh line indented two spaces
deeper, and the closing bracket returns to the enclosing indent. -/
def jsonStringify2 (ind : String) : JValue → String
  | .null => "null"
  | .bool true => "true"
  | .bool false => "false"
  | .num n => toString n
  | .str s => quoteJString s
  | .arr [] => "[]"
  | .arr (e :: rest) =>
    "[\n" ++ ind ++ "  " ++ stringifyElems (ind ++ "  ") (e :: rest) ++ "\n" ++ ind ++ "]"
  | .obj [] => "\x7b\x7d"
  | .obj (f :: rest) =>
    "\x7b\n" ++ ind ++ "  " ++ stringifyFields (ind ++ "  ") (f :: rest) ++ "\n" ++ ind ++ "\x7d"
termination_by v => sizeOf v

/-- Comma/newline-separated array elements at indent `ind`. -/
def stringifyElems (ind : String) : List JValue → String
  | [] => ""
  | [e] => jsonStringify2 ind e
  | e :: e' :: rest =>
    jsonStringify2 ind e ++ ",\n" ++ ind ++ stringifyElems ind (e' :: rest)
termination_by l => sizeOf l

/-- Comma/newline-separated object members at indent `ind`. -/
def stringifyFields (ind : String) : List (String × JValue) → String
  | [] => ""
  | [(name, v)] => quoteJString name ++ ": " ++ jsonStringify2 ind v
  | (name, v) :: f :: rest =>
    quoteJString name ++ ": " ++ jsonStringify2 ind v ++ ",\n" ++ ind ++
      stringifyFields ind (f :: rest)
termination_by l => sizeOf l

end

/-! ## Transformation pipeline (`applyFileChange`, part_010 lines 183-213) -/

/-- A staging-directory mutation performed by `applyFileChange`:
`fs.outputFile`/`fs.copy` become `write` (a copy writes the source bytes),
`fs.rm` plus the empty-ancestor cleanup becomes `removeFile`. -/
inductive StagedAction where
  | write (path : Path) (content : String)
  | removeFile (path : Path)
deriving DecidableEq, Repr

/-- Look a relative path up in a directory-entry list. -/
def findNode (entries : List (String × FSTree)) : List String → Option FSTree
  | [] => none
  | [seg] => entries.lookup seg
  | seg :: rest =>
    match entries.lookup seg with
    | some (.dir sub) => findNode sub rest
    | _ => none

/-- `fs.readFile` against the modelled source tree. -/
def readFileFromDisk (disk : Option (List (String × FSTree))) (srcDir : Path)
    (p : Path) : Option String :=
  if srcDir.isPrefixOf p then
    match disk with
    | none => none
    | some entries =>
      match findNode entries (p.drop srcDir.length) with
      | some (.file _ content) => some content
      | _ => none
  else none

/-- Embedding of `applyFileChange` for one `FileChange`, producing the
staging actions it performs.  `json5Parse` is the external `JSON5.parse`
collaborator (`.error` models the thrown `SyntaxError`); `stagedExists`
models `fs.pathExists(destPath)` against the current staging directory. -/
def applyFileChange (json5Parse : String → Except String JValue)
    (srcDir outDir : Path) (readFile : Path → Option String)
    (stagedExists : Path → Bool) (change : FileChange) :
    Except String (List StagedAction) :=
  let srcPath := change.filePath
  let ext := pathExtname srcPath
  let convertJson5 := ext = ".jsonc" || ext = ".json5"
  let destFileExt := if convertJson5 then some ".json" else none
  let destPath := getDestPath srcDir outDir srcPath destFileExt
  match change.type with
  | .remove =>
    if stagedExists destPath then .ok [.removeFile destPath] else .ok []
  | _ =>
    if convertJson5 then
      match readFile srcPath with
      | none => .error "ENOENT: no such file"
      | some original =>
        match json5Parse original with
        | .error e => .error e
        | .ok v => .ok [.write destPath (jsonStringify2 "" v)]
    else
      match readFile srcPath with
      | none => .error "ENOENT: no such file"
      | some content => .ok [.write destPath content]

/-- Apply a list of changes; `fsOp` models the outcome of the filesystem
operation behind each staging action (an `.error` models an I/O failure
while copying/converting).  `Promise.all` resolves with all results or
rejects with some failure; the model sequences in list order, which agrees
on success/failure. -/
def applyAll (json5Parse : String → Except String JValue) (srcDir outDir : Path)
    (readFile : Path → Option String) (stagedExists : Path → Bool)
    (fsOp : StagedAction → Except String Unit) :
    List FileChange → Except String (List StagedAction)
  | [] => .ok []
  | change :: rest =>
    match applyFileChange json5Parse srcDir outDir readFile stagedExists change with
    | .error e => .error e
    | .ok acts =>
      match acts.findSome? (fun a => match fsOp a with | .error e => some e | .ok _ => none) with
      | some e => .error e
      | none =>
        match applyAll json5Parse srcDir outDir readFile stagedExists fsOp rest with
        | .error e => .error e
        | .ok more => .ok (acts ++ more)

/-! ## Script bundling (`executeBuild` loop + `compileScriptsIfNeeded`) -/

/-- The recognised script extensions (src/src/build/pack-builder.ts,
`SCRIPT_FILE_EXTENSIONS`). -/
def SCRIPT_FILE_EXTENSIONS : List String :=
  [".js", ".cjs", ".mjs", ".jsx", ".ts", ".cts", ".mts", ".tsx"]

/-- The change-partitioning loop of `executeBuild` (part_010 lines 73-89):
threads the mutable `shouldBundleScripts` flag; a change is skipped (left
to the bundler) only while the flag is still `false`, because the flag
itself is the first conjunct of the guard. -/
def splitScriptChanges (cfg : PackConfig) :
    List FileChange → Bool → List FileChange × Bool
  | [], shouldBundleScripts => ([], shouldBundleScripts)
  | change :: rest, shouldBundleScripts =>
    if !shouldBundleScripts && cfg.type = PackType.behavior && cfg.scripts.isSome &&
        SCRIPT_FILE_EXTENSIONS.contains (pathExtname change.filePath) then
      splitScriptChanges cfg rest true
    else
      let (applied, flag) := splitScriptChanges cfg rest shouldBundleScripts
      (change :: applied, flag)

/-- Embedding of `compileScriptsIfNeeded` (part_010 lines 226-235): when
bundling is required, clear the staged `scripts` subtree and invoke the
external bundler over `srcDir/scripts` into `outDir/scripts`; returns the
bundler call performed, if any (`bundleResult` is the external bundler's
outcome). -/
def compileScriptsIfNeeded (cfg : PackConfig) (outDir : Path)
    (bundleResult : Except String Unit) (shouldBundle : Bool) :
    Except String (Option (Path × Path)) :=
  if !shouldBundle || cfg.type ≠ PackType.behavior || cfg.scripts.isNone then .ok none
  else
    match bundleResult with
    | .error e => .error e
    | .ok _ => .ok (some (cfg.srcDir ++ ["scripts"], outDir ++ ["scripts"]))

/-! ## `executeBuild` / `build` (part_010 lines 34-116) -/

/-- Outcome classification of a pack build attempt: the distinguished
`AbortError` versus an ordinary `Error`. -/
inductive BuildError where
  | abortError
  | fail (msg : String)
deriving DecidableEq, Repr

/-- Observable side effects of one `executeBuild` run. -/
structure Effects where
  writes : List StagedAction
  bundlerCall : Option (Path × Path)
  publishAttempted : Bool
  publishError : Option String
deriving DecidableEq, Repr

/-- Embedding of `executeBuild`.  Notes kept from the source:

* `ctx.signal?.throwIfAborted()` at entry; the token is modelled by its
  sampled value `aborted` for the attempt.
* The guard `if (!fs.pathExists(this.config.srcDir)) throw ...` tests an
  unawaited Promise, which is always truthy, so the guard can never fire
  and is dead code; a missing source directory instead surfaces as a
  logged `readdir` error inside `detectSourceTreeChanges` (modelled by
  `disk = none`), which yields an empty traversal.
* A failed `Promise.all` over the per-file changes is rewrapped as
  `Failed to apply file changes: ...`, a bundler failure as
  `Failed to compile scripts: ...`.
* A `copyOutputToTargetDirs` failure is caught and only logged
  (`copyResult` is the aggregated outcome of the per-target copies). -/
def executeBuild (m : String → String → Bool)
    (json5Parse : String → Except String JValue) (cfg : PackConfig) (outDir : Path)
    (stagedExists : Path → Bool) (fsOp : StagedAction → Except String Unit)
    (bundleResult : Except String Unit) (copyResult : Except String Unit)
    (aborted : Bool) (lastCache : Cache) (lim : Option (List Path))
    (disk : Option (List (String × FSTree))) :
    Except BuildError (Option Cache × Effects) :=
  if aborted then .error .abortError
  else
    let (changes, newCache) := detectSourceTreeChanges m cfg lastCache lim disk
    if changes.length ≤ 0 then
      .ok (none, ⟨[], none, false, none⟩)
    else
      let (applied, shouldBundleScripts) := splitScriptChanges cfg changes false
      match applyAll json5Parse cfg.srcDir outDir (readFileFromDisk disk cfg.srcDir)
          stagedExists fsOp applied with
      | .error e => .error (.fail ("Failed to apply file changes: " ++ e))
      | .ok writes =>
        match compileScriptsIfNeeded cfg outDir bundleResult shouldBundleScripts with
        | .error e => .error (.fail ("Failed to compile scripts: " ++ e))
        | .ok bundlerCall =>
          if cfg.targetDirs.length > 0 then
            match copyResult with
            | .error e => .ok (some newCache, ⟨writes, bundlerCall, true, some e⟩)
            | .ok _ => .ok (some newCache, ⟨writes, bundlerCall, true, none⟩)
          else
            .ok (some newCache, ⟨writes, bundlerCall, false, none⟩)

/-- Embedding of `PackBuilder.build` (part_010 lines 34-51): on success the
new cache, when one was returned, replaces `this.lastCache`; any thrown
error is re-raised and leaves `this.lastCache` untouched.  Returns the
outcome together with the builder's cache after the attempt. -/
def build (m : String → String → Bool) (json5Parse : String → Except String JValue)
    (cfg : PackConfig) (outDir : Path) (stagedExists : Path → Bool)
    (fsOp : StagedAction → Except String Unit) (bundleResult : Except String Unit)
    (copyResult : Except String Unit) (aborted : Bool) (lastCache : Cache)
    (lim : Option (List Path)) (disk : Option (List (String × FSTree))) :
    Except BuildError Effects × Cache :=
  match executeBuild m json5Parse cfg outDir stagedExists fsOp bundleResult copyResult
      aborted lastCache lim disk with
  | .ok (some newCache, effects) => (.ok effects, newCache)
  | .ok (none, effects) => (.ok effects, lastCache)
  | .error e => (.error e, lastCache)

/-! ## Config resolution (src/src/build/build-config.ts) -/

/-- User input for one pack (`targetDir : string | string[]` is modelled
after `resolveTargetDir`'s array wrapping). -/
structure PackInput where
  srcDir : Path
  targetDirs : List Path
  inclGlobs : Option (List String) := none
  exclGlobs : Option (List String) := none
  scripts : Option ScriptOptions := none
deriving Repr

/-- Archive options after resolution. -/
structure ArchiveOptions where
  outFile : Path
  compressionLevel : Int := 9
deriving Repr

/-- The user-facing `ConfigInput` (the fields `resolveAndValidateUserConfig`
reads). -/
structure ConfigInput where
  behaviorPack : Option PackInput := none
  resourcePack : Option PackInput := none
  archive : List ArchiveOptions := []
  watch : Bool := false
deriving Repr

/-- The resolved `BuildConfig`. -/
structure BuildConfig where
  bpConfig : Option PackConfig
  rpConfig : Option PackConfig
  archives : List ArchiveOptions
  watch : Bool
deriving Repr

/-- Embedding of `resolveAndValidateUserConfig`: throws when neither a
behaviour pack nor a resource pack is configured, else resolves both pack
configs. -/
def resolveAndValidateUserConfig (input : ConfigInput) : Except String BuildConfig :=
  if input.behaviorPack.isNone && input.resourcePack.isNone then
    .error "Neither behavior pack nor resource pack is configured."
  else
    .ok
      { bpConfig :=
          input.behaviorPack.map fun bp =>
            { type := .behavior, srcDir := bp.srcDir, targetDirs := bp.targetDirs,
              inclGlobs := bp.inclGlobs, exclGlobs := bp.exclGlobs, scripts := bp.scripts }
        rpConfig :=
          input.resourcePack.map fun rp =>
            { type := .resource, srcDir := rp.srcDir, targetDirs := rp.targetDirs,
              inclGlobs := rp.inclGlobs, exclGlobs := rp.exclGlobs, scripts := none }
        archives := input.archive
        watch := input.watch }

/-! ## BuildSystem cancel-and-restart protocol
(src/src/build/build-system.ts: `build` lines 133-159, `buildPacks` lines
161-165, `rebuild` lines 189-222)

The single-threaded event loop interleaves the in-flight build attempt
(attempt 1), the `rebuild()` invocation, and the replacement attempt
(attempt 2) at their suspension points.  `build()` installs a fresh
`AbortController` into `_currentController`, starts the two pack builds
(`bpPromise`/`rpPromise`), awaits `Promise.all` over them, and in its
`finally` clears `_currentController`.  Each pack build is a task whose
awaited filesystem operations are `work` steps interleaved with
cooperative `check`s of the token; an observed abort makes that pack
build reject.  Crucially, `Promise.all` settles as soon as one pack
build rejects, while the sibling pack build keeps running as a dangling
promise: its remaining steps stay enabled after the `finally` has
cleared `_currentController`.  `rebuild()` aborts the in-flight
controller (or returns at once when it is already aborted), then polls
until `_currentController` is observed `undefined`, then calls
`build()`. -/

/-- One step of a pack-build task: an awaited mutation of staging/target
state, or a cooperative check of the cancellation token. -/
inductive TStep where
  | work
  | check
deriving DecidableEq, Repr

/-- The status of one pack-build promise: still running with remaining
steps, resolved, or rejected (an observed abort throws out of the pack
build). -/
inductive TaskState where
  | running (steps : List TStep)
  | doneOk
  | doneErr
deriving DecidableEq, Repr

/-- Remaining program of `rebuild()`: `enter` is the
`if (this._currentController)` head (abort or early return), `waitClear`
the poll for `_currentController === undefined`, `startBuild` the call
into `build()`. -/
inductive RStep where
  | enter
  | waitClear
  | startBuild
deriving DecidableEq, Repr

/-- Events recorded by a run, newest first. -/
inductive Ev where
  | mutated (attempt : Nat)
  | cleared (attempt : Nat)
  | abortSignalled (attempt : Nat)
  | started (attempt : Nat)
deriving DecidableEq, Repr

/-- The interleaving state: `current` is `_currentController` (by attempt
id), `aborted1`/`aborted2` the token states, `t11`/`t12` attempt 1's two
pack-build promises and `t21`/`t22` attempt 2's, `main1Done`/`main2Done`
whether the corresponding `build()` frame has run its `finally`,
`started2` whether `rebuild()` has called `build()` again, `reb` the
remaining program of `rebuild()`, `body21`/`body22` the bodies the
replacement attempt's pack builds will run, `log` the event history
(newest first). -/
structure SysState where
  current : Option Nat
  aborted1 : Bool
  aborted2 : Bool
  t11 : TaskState
  t12 : TaskState
  t21 : TaskState
  t22 : TaskState
  main1Done : Bool
  main2Done : Bool
  started2 : Bool
  reb : List RStep
  body21 : List TStep
  body22 : List TStep
  log : List Ev
deriving DecidableEq, Repr

/-- One step of a single pack-build task under token state `ab`; `emit`
records whether the step mutated staging/target state. -/
inductive TaskStep (ab : Bool) : TaskState → TaskState → Bool → Prop where
  /-- An awaited filesystem mutation completes. -/
  | work (rest : List TStep) :
      TaskStep ab (.running (.work :: rest)) (.running rest) true
  /-- A cooperative token check passes. -/
  | check_ok (rest : List TStep) : ab = false →
      TaskStep ab (.running (.check :: rest)) (.running rest) false
  /-- A cooperative token check observes the abort: the pack build throws
  and its promise rejects. -/
  | check_aborted (rest : List TStep) : ab = true →
      TaskStep ab (.running (.check :: rest)) .doneErr false
  /-- The pack build runs to completion and its promise resolves. -/
  | finish : TaskStep ab (.running []) .doneOk false

/-- `Promise.all([bpPromise, rpPromise])` has settled: both promises
resolved, or at least one rejected — fail-fast, regardless of the
sibling's state. -/
def allSettledFailFast (t1 t2 : TaskState) : Prop :=
  (t1 = .doneOk ∧ t2 = .doneOk) ∨ t1 = .doneErr ∨ t2 = .doneErr

/-- The event-loop step relation. -/
inductive SysStep : SysState → SysState → Prop where
  /-- Attempt 1's first pack build takes a step (also after `build()` has
  already returned: a dangling promise keeps running). -/
  | t11_step (s : SysState) (t' : TaskState) (emit : Bool) :
      TaskStep s.aborted1 s.t11 t' emit →
      SysStep s { s with t11 := t',
                         log := if emit then .mutated 1 :: s.log else s.log }
  /-- Attempt 1's second pack build takes a step. -/
  | t12_step (s : SysState) (t' : TaskState) (emit : Bool) :
      TaskStep s.aborted1 s.t12 t' emit →
      SysStep s { s with t12 := t',
                         log := if emit then .mutated 1 :: s.log else s.log }
  /-- Attempt 2's first pack build takes a step. -/
  | t21_step (s : SysState) (t' : TaskState) (emit : Bool) :
      TaskStep s.aborted2 s.t21 t' emit →
      SysStep s { s with t21 := t',
                         log := if emit then .mutated 2 :: s.log else s.log }
  /-- Attempt 2's second pack build takes a step. -/
  | t22_step (s : SysState) (t' : TaskState) (emit : Bool) :
      TaskStep s.aborted2 s.t22 t' emit →
      SysStep s { s with t22 := t',
                         log := if emit then .mutated 2 :: s.log else s.log }
  /-- Attempt 1's `await Promise.all` completes (fail-fast) and the
  `finally` clears `_currentController`. -/
  | main1_settle (s : SysState) :
      s.main1Done = false → allSettledFailFast s.t11 s.t12 →
      SysStep s { s with main1Done := true, current := none,
                         log := .cleared 1 :: s.log }
  /-- Attempt 2's `await Promise.all` completes and its `finally` clears
  `_currentController`. -/
  | main2_settle (s : SysState) :
      s.started2 = true → s.main2Done = false → allSettledFailFast s.t21 s.t22 →
      SysStep s { s with main2Done := true, current := none,
                         log := .cleared 2 :: s.log }
  /-- `rebuild()` finds a live controller and aborts it. -/
  | reb_abort (s : SysState) (rest : List RStep) :
      s.reb = .enter :: rest → s.current = some 1 → s.aborted1 = false →
      SysStep s { s with aborted1 := true, reb := [.waitClear, .startBuild],
                         log := .abortSignalled 1 :: s.log }
  /-- `rebuild()` finds the controller already aborted ("Still trying to
  abort!") and returns without rebuilding. -/
  | reb_drop (s : SysState) (rest : List RStep) :
      s.reb = .enter :: rest → s.current = some 1 → s.aborted1 = true →
      SysStep s { s with reb := [] }
  /-- `rebuild()` finds no controller installed and proceeds straight to
  `build()`. -/
  | reb_enter_idle (s : SysState) (rest : List RStep) :
      s.reb = .enter :: rest → s.current = none →
      SysStep s { s with reb := [.startBuild] }
  /-- The poll observes `_currentController === undefined`. -/
  | reb_wait (s : SysState) (rest : List RStep) :
      s.reb = .waitClear :: rest → s.current = none →
      SysStep s { s with reb := rest }
  /-- `rebuild()` calls `build()`: a fresh controller is installed and
  the replacement attempt's pack builds begin. -/
  | reb_start (s : SysState) :
      s.reb = [.startBuild] →
      SysStep s { s with reb := [], current := some 2, started2 := true,
                         t21 := .running s.body21, t22 := .running s.body22,
                         log := .started 2 :: s.log }

/-- Reachability in the event-loop semantics. -/
def SysReachable : SysState → SysState → Prop := Relation.ReflTransGen SysStep

/-- The initial configuration the claim quantifies over: attempt 1 is in
flight (controller installed, its two pack builds running), the rebuild
trigger has just arrived, and the replacement attempt has not started. -/
def initState (body11 body12 body21 body22 : List TStep) (ab1 : Bool) : SysState :=
  { current := some 1, aborted1 := ab1, aborted2 := false,
    t11 := .running body11, t12 := .running body12,
    t21 := .doneOk, t22 := .doneOk,
    main1Done := false, main2Done := false, started2 := false,
    reb := [.enter], body21 := body21, body22 := body22, log := [] }

/-! ## Claim C5: the inclusion contract of `testInclusion`

The source's under-root test is plain `String.prototype.startsWith` on
the resolved path strings (part_007 line 14), a character-level prefix
test that does not respect segment boundaries.  `testInclusionStr` below
is the general-input embedding at the string level: `path.resolve` is the
identity on absolute normalised path strings, and `path.relative`
composed with the `replaceAll("\\", "/")` is the collaborator parameter
`rel` (like `minimatch` is the parameter `m`). -/

/-- JS `String.prototype.startsWith`: a character-level prefix test. -/
def strStartsWith (s pre : String) : Bool := pre.toList.isPrefixOf s.toList

/-- String-level embedding of `testInclusion(path, baseDir, include,
exclude)`: `startsWith` under-root test, then `exclude.some(minimatch)`,
then `include === undefined || include.some(minimatch)`. -/
def testInclusionStr (m : String → String → Bool) (rel : String → String → String)
    (path baseDir : String) (inclGlobs exclGlobs : Option (List String)) : Bool :=
  let fullPath := path
  if !(strStartsWith fullPath baseDir) then false
  else
    let relativePath := rel baseDir fullPath
    let isExcluded :=
      match exclGlobs with
      | none => false
      | some pats => pats.any (fun pattern => m relativePath pattern)
    if isExcluded then false
    else
      match inclGlobs with
      | none => true
      | some pats => pats.any (fun pattern => m relativePath pattern)

/-- Modelled from the spec: "it lies under the pack's source root" — a
resolved path string lies under a source root iff it equals the root or
extends it at a path-separator boundary. -/
def liesUnderRoot (baseDir path : String) : Bool :=
  path = baseDir || strStartsWith path (baseDir ++ "/")

/-- C5 counterexample: with source root `/a/b` and no globs, the sibling
path `/a/bc` — which does not lie under the root — passes the
`startsWith` test (`relative` would yield `../bc`) and is included, so
"no path outside the source root is ever included" fails on the code.
No glob is consulted on this input, so the matcher and `relative`
collaborators are closed off with concrete stubs. -/
theorem claim_C5_counterexample :
    testInclusionStr (fun _ _ => false) (fun _ _ => "../bc") "/a/bc" "/a/b"
      none none = true ∧
    liesUnderRoot "/a/b" "/a/bc" = false := by
  constructor
  · decide
  · decide

/-- C5 (amended): a path is included iff (a) its resolved path string
starts with the source root's resolved string — a character-level prefix
test, which unlike true containment also admits sibling paths such as
`/a/bc` under root `/a/b` —, (b) it matches at least one `include` glob
when `include` is given (absence of `include` meaning every path passing
the prefix test matches), and (c) it matches none of the `exclude` globs;
in particular, no path whose string fails the prefix test is ever
included. -/
theorem claim_C5_amended (m : String → String → Bool) (rel : String → String → String)
    (path baseDir : String) (inclGlobs exclGlobs : Option (List String)) :
    (testInclusionStr m rel path baseDir inclGlobs exclGlobs = true ↔
      (strStartsWith path baseDir = true ∧
        (inclGlobs = none ∨
          ∃ pattern ∈ inclGlobs.getD [], m (rel baseDir path) pattern = true) ∧
        (∀ pattern ∈ exclGlobs.getD [], m (rel baseDir path) pattern = false))) ∧
    (testInclusionStr m rel path baseDir inclGlobs exclGlobs = true →
      strStartsWith path baseDir = true) := by
  have main : testInclusionStr m rel path baseDir inclGlobs exclGlobs = true ↔
      (strStartsWith path baseDir = true ∧
        (inclGlobs = none ∨
          ∃ pattern ∈ inclGlobs.getD [], m (rel baseDir path) pattern = true) ∧
        (∀ pattern ∈ exclGlobs.getD [], m (rel baseDir path) pattern = false)) := by
    unfold testInclusionStr
    by_cases hpre : strStartsWith path baseDir <;>
      cases exclGlobs <;> cases inclGlobs <;>
        simp_all [List.any_eq_true, Bool.not_eq_true', not_exists, imp_false] <;>
          tauto
  exact ⟨main, fun h => (main.mp h).1⟩

/-! ## Concrete fixtures

Concrete instantiations of the external collaborators and small source
trees used by the evaluation theorems below. -/

/-- Test double for the external `JSON5.parse` collaborator, defined on
the relaxed-JSON inputs this development exercises. -/
def json5ParseStub : String → Except String JValue := fun s =>
  if s = "\x7ba:1,\x7d" then .ok (.obj [("a", .num 1)])
  else .error "SyntaxError: invalid JSON5"

/-- A glob matcher double; the fixture configs carry no globs, so it is
never consulted. -/
def matcherStub : String → String → Bool := fun _ _ => false

/-- A filesystem-operation outcome with no I/O failures. -/
def fsOpOk : StagedAction → Except String Unit := fun _ => .ok ()

/-- A staging directory with no pre-existing files. -/
def stagedEmpty : Path → Bool := fun _ => false

/-! ## Claim C8: relaxed-JSON conversion -/

/-- C8 counterexample: a source file `a.json5` containing `{a:1,}` stages
as `a.json`, but its staged content is the two-space pretty-printed
`JSON.stringify(JSON5.parse(original), null, 2)` output — not the compact
text `{"a":1}` the claim states. -/
theorem claim_C8_counterexample :
    applyFileChange json5ParseStub ["s"] ["o"]
        (readFileFromDisk (some [("a.json5", .file 0 "\x7ba:1,\x7d")]) ["s"]) stagedEmpty
        ⟨.add, ["s", "a.json5"]⟩ =
      .ok [.write ["o", "a.json"] "\x7b\n  \"a\": 1\n\x7d"] ∧
    ("\x7b\n  \"a\": 1\n\x7d" : String) ≠ "\x7b\"a\":1\x7d" := by
  constructor
  · simp [applyFileChange, jsonStringify2, stringifyFields, json5ParseStub, readFileFromDisk,
      findNode, getDestPath, pathExtname, extname, lastDotPos, baseNameNoExt, quoteJString,
      escapeJChar, joinPath, stagedEmpty]
    decide
  · decide

/-- C8 (amended): for every `add`/`update` change whose source file has
extension `.json5` or `.jsonc`, the content is parsed with the relaxed-JSON
collaborator and re-serialized as strict JSON in the two-space
pretty-printed form of `JSON.stringify(·, null, 2)`, written to the staged
path with the extension normalized to `.json`. -/
theorem claim_C8_amended (json5Parse : String → Except String JValue)
    (srcDir outDir : Path) (readFile : Path → Option String)
    (stagedExists : Path → Bool) (ty : ChangeType) (p : Path)
    (original : String) (v : JValue)
    (hty : ty ≠ .remove)
    (hext : pathExtname p = ".json5" ∨ pathExtname p = ".jsonc")
    (hread : readFile p = some original)
    (hparse : json5Parse original = .ok v) :
    applyFileChange json5Parse srcDir outDir readFile stagedExists ⟨ty, p⟩ =
      .ok [.write (getDestPath srcDir outDir p (some ".json")) (jsonStringify2 "" v)] := by
  have hc : (pathExtname p = ".jsonc" || pathExtname p = ".json5") = true := by
    rcases hext with h | h <;> simp [h]
  cases ty with
  | remove => exact absurd rfl hty
  | add => simp [applyFileChange, hc, hread, hparse]
  | update => simp [applyFileChange, hc, hread, hparse]

/-- C8 amended, witnessed at the `{a:1,}` fixture. -/
theorem claim_C8_amended_witness :
    applyFileChange json5ParseStub ["s"] ["o"]
        (readFileFromDisk (some [("a.json5", .file 0 "\x7ba:1,\x7d")]) ["s"]) stagedEmpty
        ⟨.update, ["s", "a.json5"]⟩ =
      .ok [.write (getDestPath ["s"] ["o"] ["s", "a.json5"] (some ".json"))
        (jsonStringify2 "" (.obj [("a", .num 1)]))] :=
  claim_C8_amended json5ParseStub ["s"] ["o"]
    (readFileFromDisk (some [("a.json5", .file 0 "\x7ba:1,\x7d")]) ["s"]) stagedEmpty
    .update ["s", "a.json5"] "\x7ba:1,\x7d" (.obj [("a", .num 1)])
    (by decide)
    (Or.inl (by decide))
    (by simp [readFileFromDisk, findNode])
    (by simp [json5ParseStub])

/-! ## Claim C6: script changes and the bundler -/

/-- Behaviour pack with script options, used by the C6 evaluation. -/
def cfgScripts : PackConfig :=
  { type := .behavior, srcDir := ["s"], targetDirs := [], scripts := some {} }

/-- Source tree with two script files, used by the C6 evaluation. -/
def diskScripts : List (String × FSTree) :=
  [("scripts", .dir [("a.ts", .file 1 "A"), ("b.ts", .file 2 "B")])]

/-- C6 evaluation at the failing input: with two changed script files in a
behaviour pack that declares script options, `executeBuild` marks the
bundler (which is invoked exactly once, over `srcDir/scripts` into the
staged `scripts` subdirectory) but — because `!shouldBundleScripts` is the
first conjunct of the skip guard — only the **first** script change is left
to the bundler: the second script file `b.ts` is applied individually and
its bytes are copied into the staging directory, contradicting the claim
that script changes are never copied individually. -/
theorem claim_C6_code_divergence :
    executeBuild matcherStub json5ParseStub cfgScripts ["o"] stagedEmpty fsOpOk
        (.ok ()) (.ok ()) false [] none (some diskScripts) =
      .ok (some [(["s", "scripts", "a.ts"], 1), (["s", "scripts", "b.ts"], 2)],
        { writes := [.write ["o", "scripts", "b.ts"] "B"],
          bundlerCall := some (["s", "scripts"], ["o", "scripts"]),
          publishAttempted := false, publishError := none }) := by
  have hdet : detectSourceTreeChanges matcherStub cfgScripts [] none (some diskScripts) =
      ([⟨.add, ["s", "scripts", "a.ts"]⟩, ⟨.add, ["s", "scripts", "b.ts"]⟩],
        [(["s", "scripts", "a.ts"], 1), (["s", "scripts", "b.ts"], 2)]) := by
    simp [detectSourceTreeChanges, discoveredFiles, walkQueue, processEntries, shouldInclude,
      testInclusion, scopeCheckOk, cfgScripts, diskScripts, checkFileChange, removeLoop]
  rw [executeBuild, hdet]
  simp [splitScriptChanges, cfgScripts, SCRIPT_FILE_EXTENSIONS,
    pathExtname, extname, lastDotPos, applyAll, applyFileChange, readFileFromDisk, findNode,
    getDestPath, baseNameNoExt, compileScriptsIfNeeded, fsOpOk, stagedEmpty, diskScripts]
  rfl

/-! ## Claim C9: configuration errors -/

/-- Resource pack whose source directory is missing on disk, used by the
C9 evaluation. -/
def cfgMissingSrc : PackConfig :=
  { type := .resource, srcDir := ["absent"], targetDirs := [] }

/-- C9 evaluation: resolving a configuration with neither pack configured
does throw, but a build attempt for a pack whose source directory does not
exist on disk (`disk = none`) succeeds instead of failing: the
`if (!fs.pathExists(srcDir)) throw ...` guard tests an unawaited Promise
(always truthy), so it can never fire, and the `readdir` failure inside
the traversal is merely logged, yielding an empty change list and a
successful early return. -/
theorem claim_C9_code_divergence :
    resolveAndValidateUserConfig { behaviorPack := none, resourcePack := none } =
      .error "Neither behavior pack nor resource pack is configured." ∧
    executeBuild matcherStub json5ParseStub cfgMissingSrc ["o"] stagedEmpty fsOpOk
        (.ok ()) (.ok ()) false [] none none =
      .ok (none, ⟨[], none, false, none⟩) := by
  constructor
  · simp [resolveAndValidateUserConfig]
  · have hdet : detectSourceTreeChanges matcherStub cfgMissingSrc [] none none = ([], []) := by
      simp [detectSourceTreeChanges, discoveredFiles, removeLoop]
    simp [executeBuild, hdet]

/-! ## Claim C10: a no-change build attempt is a no-op -/

/-- C10: when change detection yields an empty list of FileChanges, the
pack build returns early without error: no file transformation is applied,
the script bundler is not invoked, no target directory is touched, and the
pack's ChangeCache is left unchanged. -/
theorem claim_C10_no_change_noop (m : String → String → Bool)
    (json5Parse : String → Except String JValue) (cfg : PackConfig) (outDir : Path)
    (stagedExists : Path → Bool) (fsOp : StagedAction → Except String Unit)
    (bundleResult copyResult : Except String Unit) (lastCache : Cache)
    (lim : Option (List Path)) (disk : Option (List (String × FSTree))) (nc : Cache)
    (hdet : detectSourceTreeChanges m cfg lastCache lim disk = ([], nc)) :
    executeBuild m json5Parse cfg outDir stagedExists fsOp bundleResult copyResult
        false lastCache lim disk =
      .ok (none, { writes := [], bundlerCall := none, publishAttempted := false,
                   publishError := none }) ∧
    build m json5Parse cfg outDir stagedExists fsOp bundleResult copyResult
        false lastCache lim disk =
      (.ok { writes := [], bundlerCall := none, publishAttempted := false,
                   publishError := none }, lastCache) := by
  have hexe : executeBuild m json5Parse cfg outDir stagedExists fsOp bundleResult copyResult
      false lastCache lim disk =
      .ok (none, { writes := [], bundlerCall := none, publishAttempted := false,
                   publishError := none }) := by
    rw [executeBuild, hdet]
    simp
  exact ⟨hexe, by rw [build, hexe]⟩

/-- C10, witnessed at a one-file tree whose cache entry is up to date. -/
theorem claim_C10_no_change_noop_witness :
    executeBuild matcherStub json5ParseStub
        { type := .resource, srcDir := ["s"], targetDirs := [["t"]] } ["o"] stagedEmpty fsOpOk
        (.ok ()) (.ok ()) false [(["s", "a"], 5)] none (some [("a", .file 5 "x")]) =
      .ok (none, { writes := [], bundlerCall := none, publishAttempted := false,
                   publishError := none }) ∧
    build matcherStub json5ParseStub
        { type := .resource, srcDir := ["s"], targetDirs := [["t"]] } ["o"] stagedEmpty fsOpOk
        (.ok ()) (.ok ()) false [(["s", "a"], 5)] none (some [("a", .file 5 "x")]) =
      (.ok { writes := [], bundlerCall := none, publishAttempted := false,
                   publishError := none }, [(["s", "a"], 5)]) :=
  claim_C10_no_change_noop matcherStub json5ParseStub
    { type := .resource, srcDir := ["s"], targetDirs := [["t"]] } ["o"] stagedEmpty fsOpOk
    (.ok ()) (.ok ()) [(["s", "a"], 5)] none (some [("a", .file 5 "x")]) [(["s", "a"], 5)]
    (by simp [detectSourceTreeChanges, discoveredFiles, walkQueue, processEntries,
      shouldInclude, testInclusion, scopeCheckOk, checkFileChange, removeLoop])

/-! ## Claim C7: per-file failures are fatal, publish failures are not -/

/-- A failing `applyFileChange` for some change in the applied list makes
the whole `applyAll` fail. -/
theorem applyAll_error_of_mem (json5Parse : String → Except String JValue)
    (srcDir outDir : Path) (readFile : Path → Option String)
    (stagedExists : Path → Bool) (fsOp : StagedAction → Except String Unit)
    (applied : List FileChange) (c : FileChange) (fe : String)
    (hc : c ∈ applied)
    (hfail : applyFileChange json5Parse srcDir outDir readFile stagedExists c = .error fe) :
    ∃ e, applyAll json5Parse srcDir outDir readFile stagedExists fsOp applied = .error e := by
  induction applied with
  | nil => cases hc
  | cons hd tl ih =>
    rcases List.mem_cons.mp hc with hceq | hctl
    · subst hceq
      exact ⟨fe, by simp [applyAll, hfail]⟩
    · cases happ : applyFileChange json5Parse srcDir outDir readFile stagedExists hd with
      | error e => exact ⟨e, by simp [applyAll, happ]⟩
      | ok acts =>
        cases hfs : acts.findSome?
            (fun a => match fsOp a with | .error e => some e | .ok _ => none) with
        | some e => exact ⟨e, by simp [applyAll, happ, hfs]⟩
        | none =>
          obtain ⟨e, he⟩ := ih hctl
          exact ⟨e, by simp [applyAll, happ, hfs, he]⟩

/-- C7: within one pack build attempt, a failure while transforming any
single file (a relaxed-JSON parse error, a missing source file, or an I/O
error during copy/convert — any `.error` from `applyFileChange`) fails the
whole pack build with an error, whereas a failure in the final
publish-to-targets copy step is logged and the attempt still succeeds. -/
theorem claim_C7_failure_policy (m : String → String → Bool)
    (json5Parse : String → Except String JValue) (cfg : PackConfig) (outDir : Path)
    (stagedExists : Path → Bool) (fsOp : StagedAction → Except String Unit)
    (bundleResult : Except String Unit) (copyResult : Except String Unit)
    (lastCache : Cache) (lim : Option (List Path))
    (disk : Option (List (String × FSTree))) (changes : List FileChange) (nc : Cache)
    (hdet : detectSourceTreeChanges m cfg lastCache lim disk = (changes, nc)) :
    (∀ c fe, c ∈ (splitScriptChanges cfg changes false).1 →
      applyFileChange json5Parse cfg.srcDir outDir (readFileFromDisk disk cfg.srcDir)
          stagedExists c = .error fe →
      ∃ msg, executeBuild m json5Parse cfg outDir stagedExists fsOp bundleResult copyResult
          false lastCache lim disk = .error (.fail msg)) ∧
    (∀ writes bundlerCall ce,
      changes ≠ [] →
      applyAll json5Parse cfg.srcDir outDir (readFileFromDisk disk cfg.srcDir)
          stagedExists fsOp (splitScriptChanges cfg changes false).1 = .ok writes →
      compileScriptsIfNeeded cfg outDir bundleResult
          (splitScriptChanges cfg changes false).2 = .ok bundlerCall →
      cfg.targetDirs ≠ [] →
      copyResult = .error ce →
      executeBuild m json5Parse cfg outDir stagedExists fsOp bundleResult copyResult
          false lastCache lim disk =
        .ok (some nc, { writes := writes, bundlerCall := bundlerCall,
                        publishAttempted := true, publishError := some ce })) := by
  constructor
  · intro c fe hc hfail
    obtain ⟨e, he⟩ := applyAll_error_of_mem json5Parse cfg.srcDir outDir
      (readFileFromDisk disk cfg.srcDir) stagedExists fsOp _ c fe hc hfail
    refine ⟨"Failed to apply file changes: " ++ e, ?_⟩
    rw [executeBuild, hdet]
    have hne : changes ≠ [] := by
      intro hnil
      rw [hnil] at he
      simp [splitScriptChanges, applyAll] at he
    have hlen : ¬(changes.length ≤ 0) := by
      simpa [Nat.le_zero, List.length_eq_zero] using hne
    simp [hlen, he]
  · intro writes bundlerCall ce hne happly hcomp htgt hcopy
    rw [executeBuild, hdet]
    have hlen : ¬(changes.length ≤ 0) := by
      simpa [Nat.le_zero, List.length_eq_zero] using hne
    have htlen : cfg.targetDirs.length > 0 := by
      cases htd : cfg.targetDirs with
      | nil => exact absurd htd htgt
      | cons hd tl => simp [htd]
    simp [hlen, happly, hcomp, htlen, hcopy]

/-- C7, witnessed: a relaxed-JSON parse failure fails the pack build, and
a publish-step failure still yields a successful attempt. -/
theorem claim_C7_failure_policy_witness :
    (∃ msg, executeBuild matcherStub json5ParseStub
        { type := .resource, srcDir := ["s"], targetDirs := [] } ["o"] stagedEmpty fsOpOk
        (.ok ()) (.ok ()) false [] none (some [("bad.json5", .file 1 "oops")]) =
      .error (.fail msg)) ∧
    executeBuild matcherStub json5ParseStub
        { type := .resource, srcDir := ["s"], targetDirs := [["t"]] } ["o"] stagedEmpty fsOpOk
        (.ok ()) (.error "EACCES") false [] none (some [("a.txt", .file 1 "x")]) =
      .ok (some [(["s", "a.txt"], 1)],
        { writes := [.write ["o", "a.txt"] "x"], bundlerCall := none,
          publishAttempted := true, publishError := some "EACCES" }) := by
  constructor
  · exact (claim_C7_failure_policy matcherStub json5ParseStub
      { type := .resource, srcDir := ["s"], targetDirs := [] } ["o"] stagedEmpty fsOpOk
      (.ok ()) (.ok ()) [] none (some [("bad.json5", .file 1 "oops")])
      [⟨.add, ["s", "bad.json5"]⟩] [(["s", "bad.json5"], 1)]
      (by simp [detectSourceTreeChanges, discoveredFiles, walkQueue, processEntries,
        shouldInclude, testInclusion, scopeCheckOk, checkFileChange, removeLoop])).1
      ⟨.add, ["s", "bad.json5"]⟩ "SyntaxError: invalid JSON5"
      (by simp [splitScriptChanges])
      (by simp [applyFileChange, pathExtname, extname, lastDotPos, readFileFromDisk,
        findNode, json5ParseStub])
  · exact (claim_C7_failure_policy matcherStub json5ParseStub
      { type := .resource, srcDir := ["s"], targetDirs := [["t"]] } ["o"] stagedEmpty fsOpOk
      (.ok ()) (.error "EACCES") [] none (some [("a.txt", .file 1 "x")])
      [⟨.add, ["s", "a.txt"]⟩] [(["s", "a.txt"], 1)]
      (by simp [detectSourceTreeChanges, discoveredFiles, walkQueue, processEntries,
        shouldInclude, testInclusion, scopeCheckOk, checkFileChange, removeLoop])).2
      [.write ["o", "a.txt"] "x"] none "EACCES"
      (by simp)
      (by simp [splitScriptChanges, applyAll, applyFileChange, pathExtname, extname,
        lastDotPos, readFileFromDisk, findNode, getDestPath, baseNameNoExt, fsOpOk])
      (by simp [splitScriptChanges, compileScriptsIfNeeded])
      (by simp)
      rfl

/-! ## Claim C1: cache replacement policy -/

/-- Classification of a successful `executeBuild`: success with `none`
means the change list was empty; success with `some c` installs exactly
the cache computed by that run's change detection, and only happens when
at least one change was detected. -/
theorem executeBuild_ok_cases (m : String → String → Bool)
    (json5Parse : String → Except String JValue) (cfg : PackConfig) (outDir : Path)
    (stagedExists : Path → Bool) (fsOp : StagedAction → Except String Unit)
    (bundleResult copyResult : Except String Unit) (aborted : Bool) (lastCache : Cache)
    (lim : Option (List Path)) (disk : Option (List (String × FSTree)))
    (oc : Option Cache) (eff : Effects)
    (h : executeBuild m json5Parse cfg outDir stagedExists fsOp bundleResult copyResult
        aborted lastCache lim disk = .ok (oc, eff)) :
    aborted = false ∧
    (oc = none → (detectSourceTreeChanges m cfg lastCache lim disk).1 = []) ∧
    (∀ c, oc = some c →
      c = (detectSourceTreeChanges m cfg lastCache lim disk).2 ∧
      (detectSourceTreeChanges m cfg lastCache lim disk).1 ≠ []) := by
  rw [executeBuild] at h
  rcases hdet : detectSourceTreeChanges m cfg lastCache lim disk with ⟨changes, nc⟩
  rw [hdet] at h
  cases aborted with
  | true => simp at h
  | false =>
    refine ⟨rfl, ?_⟩
    simp only [Bool.false_eq_true, if_false] at h
    by_cases hl : changes.length ≤ 0
    · rw [if_pos hl] at h
      have hoc : oc = none := by
        simp only [Except.ok.injEq, Prod.mk.injEq] at h
        exact h.1.symm
      have hchn : changes = [] := by
        simpa [Nat.le_zero, List.length_eq_zero] using hl
      subst hoc
      exact ⟨(fun _ => by simp [hchn]), fun c hc => by cases hc⟩
    · rw [if_neg hl] at h
      have hchn : (changes ≠ []) := by
        simpa [Nat.le_zero, List.length_eq_zero] using hl
      cases happ : applyAll json5Parse cfg.srcDir outDir (readFileFromDisk disk cfg.srcDir)
          stagedExists fsOp (splitScriptChanges cfg changes false).1 with
      | error e => rw [happ] at h; simp at h
      | ok writes =>
        rw [happ] at h
        simp only [] at h
        cases hcomp : compileScriptsIfNeeded cfg outDir bundleResult
            (splitScriptChanges cfg changes false).2 with
        | error e => rw [hcomp] at h; simp at h
        | ok bundlerCall =>
          rw [hcomp] at h
          simp only [] at h
          have hoc : oc = some nc := by
            by_cases htgt : cfg.targetDirs.length > 0
            · rw [if_pos htgt] at h
              cases copyResult with
              | error ce =>
                simp only [Except.ok.injEq, Prod.mk.injEq] at h
                exact h.1.symm
              | ok u =>
                simp only [Except.ok.injEq, Prod.mk.injEq] at h
                exact h.1.symm
            · rw [if_neg htgt] at h
              simp only [Except.ok.injEq, Prod.mk.injEq] at h
              exact h.1.symm
          subst hoc
          exact ⟨(fun hn => by cases hn), fun c hc => by cases hc; exact ⟨rfl, hchn⟩⟩

/-- C1 (amended): the pack's ChangeCache is replaced by the newly computed
cache iff the attempt succeeds **and** at least one FileChange was
detected; a cancelled or failed attempt — and likewise a successful
attempt that detected zero changes — leaves the previous cache exactly as
it was before the attempt started. -/
theorem claim_C1_amended (m : String → String → Bool)
    (json5Parse : String → Except String JValue) (cfg : PackConfig) (outDir : Path)
    (stagedExists : Path → Bool) (fsOp : StagedAction → Except String Unit)
    (bundleResult copyResult : Except String Unit) (aborted : Bool) (lastCache : Cache)
    (lim : Option (List Path)) (disk : Option (List (String × FSTree))) :
    (∀ e, (build m json5Parse cfg outDir stagedExists fsOp bundleResult copyResult
        aborted lastCache lim disk).1 = .error e →
      (build m json5Parse cfg outDir stagedExists fsOp bundleResult copyResult
        aborted lastCache lim disk).2 = lastCache) ∧
    (∀ eff, (build m json5Parse cfg outDir stagedExists fsOp bundleResult copyResult
        aborted lastCache lim disk).1 = .ok eff →
      (detectSourceTreeChanges m cfg lastCache lim disk).1 ≠ [] →
      (build m json5Parse cfg outDir stagedExists fsOp bundleResult copyResult
        aborted lastCache lim disk).2 =
        (detectSourceTreeChanges m cfg lastCache lim disk).2) ∧
    (∀ eff, (build m json5Parse cfg outDir stagedExists fsOp bundleResult copyResult
        aborted lastCache lim disk).1 = .ok eff →
      (detectSourceTreeChanges m cfg lastCache lim disk).1 = [] →
      (build m json5Parse cfg outDir stagedExists fsOp bundleResult copyResult
        aborted lastCache lim disk).2 = lastCache) := by
  rw [build]
  cases hexe : executeBuild m json5Parse cfg outDir stagedExists fsOp bundleResult copyResult
      aborted lastCache lim disk with
  | error e =>
    exact ⟨(fun _ _ => rfl), (fun eff heff => by cases heff), fun eff heff => by cases heff⟩
  | ok p =>
    rcases p with ⟨oc, eff⟩
    obtain ⟨-, hnone, hsome⟩ := executeBuild_ok_cases m json5Parse cfg outDir stagedExists
      fsOp bundleResult copyResult aborted lastCache lim disk oc eff hexe
    cases oc with
    | none =>
      refine ⟨(fun e he => by cases he), (fun eff2 _ hne => absurd (hnone rfl) hne),
        fun _ _ _ => rfl⟩
    | some c =>
      obtain ⟨hc, hne⟩ := hsome c rfl
      exact ⟨(fun e he => by cases he), (fun eff2 _ _ => hc), fun _ _ hnil => absurd hnil hne⟩

/-- Resource pack fixture of the scoped-rebuild evaluations. -/
def cfgScoped : PackConfig := { type := .resource, srcDir := ["s"], targetDirs := [] }

/-- One unchanged on-disk file `s/a`, used by the scoped evaluations. -/
def diskScoped : List (String × FSTree) := [("a", .file 1 "x")]

/-- C1 counterexample: a successful attempt (zero detected changes under a
scope limit) whose newly computed cache differs from the previous cache,
and yet the previous cache is left in place — success without replacement,
refuting "replaced iff the attempt succeeds". -/
theorem claim_C1_counterexample :
    build matcherStub json5ParseStub cfgScoped ["o"] stagedEmpty fsOpOk (.ok ()) (.ok ())
        false [(["s", "a"], 1), (["s", "x"], 5)] (some [["s", "a"]]) (some diskScoped) =
      (.ok ⟨[], none, false, none⟩, [(["s", "a"], 1), (["s", "x"], 5)]) ∧
    (detectSourceTreeChanges matcherStub cfgScoped [(["s", "a"], 1), (["s", "x"], 5)]
        (some [["s", "a"]]) (some diskScoped)).2 = [(["s", "a"], 1)] ∧
    ([(["s", "a"], 1), (["s", "x"], 5)] : Cache) ≠ [(["s", "a"], 1)] := by
  have hdet : detectSourceTreeChanges matcherStub cfgScoped [(["s", "a"], 1), (["s", "x"], 5)]
      (some [["s", "a"]]) (some diskScoped) = ([], [(["s", "a"], 1)]) := by
    simp [detectSourceTreeChanges, discoveredFiles, walkQueue, processEntries, shouldInclude,
      testInclusion, scopeCheckOk, cfgScoped, diskScoped, checkFileChange, removeLoop]
  refine ⟨?_, by rw [hdet], by decide⟩
  rw [build, executeBuild, hdet]
  simp

/-- C1 amended, witnessed at a failing attempt (bad relaxed JSON) and at a
successful attempt with one change. -/
theorem claim_C1_amended_witness :
    (build matcherStub json5ParseStub cfgScoped ["o"] stagedEmpty fsOpOk (.ok ()) (.ok ())
        false [] none (some [("bad.json5", .file 1 "oops")])).2 = [] ∧
    (build matcherStub json5ParseStub cfgScoped ["o"] stagedEmpty fsOpOk (.ok ()) (.ok ())
        false [] none (some [("a.txt", .file 1 "x")])).2 =
      (detectSourceTreeChanges matcherStub cfgScoped [] none
        (some [("a.txt", .file 1 "x")])).2 := by
  constructor
  · refine (claim_C1_amended matcherStub json5ParseStub cfgScoped ["o"] stagedEmpty fsOpOk
      (.ok ()) (.ok ()) false [] none (some [("bad.json5", .file 1 "oops")])).1
      (.fail ("Failed to apply file changes: " ++ "SyntaxError: invalid JSON5")) ?_
    have hdet : detectSourceTreeChanges matcherStub cfgScoped []
        none (some [("bad.json5", .file 1 "oops")]) =
        ([⟨.add, ["s", "bad.json5"]⟩], [(["s", "bad.json5"], 1)]) := by
      simp [detectSourceTreeChanges, discoveredFiles, walkQueue, processEntries, shouldInclude,
        testInclusion, scopeCheckOk, cfgScoped, checkFileChange, removeLoop]
    rw [build, executeBuild, hdet]
    simp [splitScriptChanges, cfgScoped, applyAll, applyFileChange, pathExtname, extname,
      lastDotPos, readFileFromDisk, findNode, json5ParseStub]
  · refine (claim_C1_amended matcherStub json5ParseStub cfgScoped ["o"] stagedEmpty fsOpOk
      (.ok ()) (.ok ()) false [] none (some [("a.txt", .file 1 "x")])).2.1
      ⟨[.write ["o", "a.txt"] "x"], none, false, none⟩ ?_ ?_
    · have hdet : detectSourceTreeChanges matcherStub cfgScoped []
          none (some [("a.txt", .file 1 "x")]) =
          ([⟨.add, ["s", "a.txt"]⟩], [(["s", "a.txt"], 1)]) := by
        simp [detectSourceTreeChanges, discoveredFiles, walkQueue, processEntries, shouldInclude,
          testInclusion, scopeCheckOk, cfgScoped, checkFileChange, removeLoop]
      rw [build, executeBuild, hdet]
      simp [splitScriptChanges, cfgScoped, applyAll, applyFileChange, pathExtname, extname,
        lastDotPos, readFileFromDisk, findNode, getDestPath, baseNameNoExt, fsOpOk,
        compileScriptsIfNeeded]
    · have hdet : detectSourceTreeChanges matcherStub cfgScoped []
          none (some [("a.txt", .file 1 "x")]) =
          ([⟨.add, ["s", "a.txt"]⟩], [(["s", "a.txt"], 1)]) := by
        simp [detectSourceTreeChanges, discoveredFiles, walkQueue, processEntries, shouldInclude,
          testInclusion, scopeCheckOk, cfgScoped, checkFileChange, removeLoop]
      rw [hdet]
      simp

/-! ## Claim C3: scoped change detection -/

/-- C3 evaluation at the failing input: cache `[s/a ↦ 1, s/x ↦ 5, s/b ↦ 7]`,
scope limit `{s/a, s/b}`, disk containing only `s/a` (unchanged).  The
removal loop `break`s at the first cached path outside the scope (`s/x`),
so the in-scope, on-disk-absent `s/b` gets **no** `remove`; and the
out-of-scope cached `s/x` is **not** carried over into the new cache,
which retains only the diff-checked `s/a`. -/
theorem claim_C3_code_divergence :
    detectSourceTreeChanges matcherStub cfgScoped
        [(["s", "a"], 1), (["s", "x"], 5), (["s", "b"], 7)]
        (some [["s", "a"], ["s", "b"]]) (some diskScoped) = ([], [(["s", "a"], 1)]) ∧
    FileChange.mk .remove ["s", "b"] ∉
      (detectSourceTreeChanges matcherStub cfgScoped
        [(["s", "a"], 1), (["s", "x"], 5), (["s", "b"], 7)]
        (some [["s", "a"], ["s", "b"]]) (some diskScoped)).1 ∧
    (["s", "x"], (5 : Int)) ∉
      (detectSourceTreeChanges matcherStub cfgScoped
        [(["s", "a"], 1), (["s", "x"], 5), (["s", "b"], 7)]
        (some [["s", "a"], ["s", "b"]]) (some diskScoped)).2 := by
  have hdet : detectSourceTreeChanges matcherStub cfgScoped
      [(["s", "a"], 1), (["s", "x"], 5), (["s", "b"], 7)]
      (some [["s", "a"], ["s", "b"]]) (some diskScoped) = ([], [(["s", "a"], 1)]) := by
    simp [detectSourceTreeChanges, discoveredFiles, walkQueue, processEntries, shouldInclude,
      testInclusion, scopeCheckOk, cfgScoped, diskScoped, checkFileChange, removeLoop]
  exact ⟨hdet, by rw [hdet]; decide, by rw [hdet]; decide⟩

/-! ## Claim C2: diff policy -/

/-- All node paths of a subtree rooted at `base` (the node itself and all
descendants). -/
def subtreePaths (base : Path) : FSTree → List Path
  | .file _ _ => [base]
  | .dir entries => base :: entriesPaths base entries
where
  /-- All node paths contributed by a directory-entry list under `base`. -/
  entriesPaths (base : Path) : List (String × FSTree) → List Path
  | [] => []
  | (n, t) :: rest => subtreePaths (base ++ [n]) t ++ entriesPaths base rest

theorem treeSize_le_entriesSize (n : String) (t : FSTree)
    (es : List (String × FSTree)) (h : (n, t) ∈ es) :
    treeSize t ≤ treeSize.entriesSize es := by
  induction es with
  | nil => cases h
  | cons hd tl ih =>
    rcases List.mem_cons.mp h with he | htl
    · rw [← he]; simp [treeSize.entriesSize]
    · have := ih htl
      cases hd
      simp only [treeSize.entriesSize]
      omega

theorem paths_shape (N : Nat) :
    (∀ t, treeSize t ≤ N → ∀ base q, q ∈ subtreePaths base t → ∃ r, q = base ++ r) ∧
    (∀ es, treeSize.entriesSize es ≤ N → ∀ base q, q ∈ subtreePaths.entriesPaths base es →
      ∃ n r, n ∈ es.map Prod.fst ∧ q = base ++ n :: r) := by
  induction N using Nat.strong_induction_on with
  | _ N ih =>
    have hB : ∀ t, treeSize t ≤ N → ∀ base q, q ∈ subtreePaths base t → ∃ r, q = base ++ r := by
      intro t hN base q hq
      cases t with
      | file mt ct =>
        simp [subtreePaths] at hq
        exact ⟨[], by simp [hq]⟩
      | dir es =>
        simp only [subtreePaths, List.mem_cons] at hq
        rcases hq with hq | hq
        · exact ⟨[], by simp [hq]⟩
        · have hN' : treeSize.entriesSize es ≤ N - 1 := by
            simp [treeSize] at hN; omega
          have hNlt : N - 1 < N := by
            have h1 : 1 ≤ treeSize (FSTree.dir es) := by simp [treeSize]
            omega
          obtain ⟨n, r, -, hqe⟩ := (ih (N - 1) hNlt).2 es hN' base q hq
          exact ⟨n :: r, hqe⟩
    refine ⟨hB, ?_⟩
    intro es
    induction es with
    | nil => intro _ base q hq; simp [subtreePaths.entriesPaths] at hq
    | cons hd tl ihl =>
      rcases hd with ⟨n, t⟩
      intro hN base q hq
      simp only [subtreePaths.entriesPaths, List.mem_append] at hq
      rcases hq with hq | hq
      · have hsz : treeSize t ≤ N := by
          simp [treeSize.entriesSize] at hN
          omega
        obtain ⟨r, hr⟩ := hB t hsz (base ++ [n]) q hq
        exact ⟨n, r, by simp, by simp [hr]⟩
      · have hsz : treeSize.entriesSize tl ≤ N := by
          have h1 : 1 ≤ treeSize t := by cases t <;> simp [treeSize]
          simp only [treeSize.entriesSize] at hN
          omega
        obtain ⟨n', r, hmem, hr⟩ := ihl hsz base q hq
        exact ⟨n', r, by rw [List.map_cons]; exact List.mem_cons_of_mem _ hmem, hr⟩

theorem paths_nodup (N : Nat) :
    (∀ t, treeSize t ≤ N → goodEntries.goodTree t = true →
      ∀ base, (subtreePaths base t).Nodup) ∧
    (∀ es, treeSize.entriesSize es ≤ N → goodEntries es = true →
      ∀ base, (subtreePaths.entriesPaths base es).Nodup) := by
  induction N using Nat.strong_induction_on with
  | _ N ih =>
    have hC : ∀ t, treeSize t ≤ N → goodEntries.goodTree t = true →
        ∀ base, (subtreePaths base t).Nodup := by
      intro t hN hg base
      cases t with
      | file mt ct => simp [subtreePaths]
      | dir es =>
        have h1 : 1 ≤ treeSize (FSTree.dir es) := by simp [treeSize]
        have hNlt : N - 1 < N := by omega
        have hN' : treeSize.entriesSize es ≤ N - 1 := by
          simp only [treeSize] at hN; omega
        have hge : goodEntries es = true := by simpa [goodEntries.goodTree] using hg
        have hnd := (ih (N - 1) hNlt).2 es hN' hge base
        simp only [subtreePaths, List.nodup_cons]
        refine ⟨?_, hnd⟩
        intro hmem
        obtain ⟨n, r, -, hq⟩ := (paths_shape (treeSize.entriesSize es)).2 es le_rfl base base hmem
        have : (n :: r : List String) = [] := by
          have := hq
          simpa using this.symm
        cases this
    refine ⟨hC, ?_⟩
    intro es
    induction es with
    | nil => intro _ _ base; simp [subtreePaths.entriesPaths]
    | cons hd tl ihl =>
      rcases hd with ⟨n, t⟩
      intro hN hg base
      have hgparts : ((∀ (a : String) (b : FSTree), (a, b) ∈ tl → ¬a = n) ∧
          goodEntries.goodTree t = true) ∧ goodEntries tl = true := by
        simpa [goodEntries, Bool.and_eq_true] using hg
      obtain ⟨⟨hname, hgt⟩, hgtl⟩ := hgparts
      have hszt : treeSize t ≤ N := by
        simp only [treeSize.entriesSize] at hN; omega
      have hsztl : treeSize.entriesSize tl ≤ N := by
        have h1 : 1 ≤ treeSize t := by cases t <;> simp [treeSize]
        simp only [treeSize.entriesSize] at hN; omega
      simp only [subtreePaths.entriesPaths]
      rw [List.nodup_append]
      refine ⟨hC t hszt hgt (base ++ [n]), ihl hsztl hgtl base, ?_⟩
      intro q hql hqr
      obtain ⟨r, hr⟩ := (paths_shape (treeSize t)).1 t le_rfl (base ++ [n]) q hql
      obtain ⟨n', r', hmem', hr'⟩ :=
        (paths_shape (treeSize.entriesSize tl)).2 tl le_rfl base q hqr
      have hne : n' ≠ n := by
        rcases List.mem_map.mp hmem' with ⟨e, hemem, hefst⟩
        rcases e with ⟨en, et⟩
        exact hefst ▸ hname en et hemem
      apply hne
      have heq : base ++ (n :: r) = base ++ (n' :: r') := by
        have h1 : q = base ++ (n :: r) := by simpa [List.append_assoc] using hr
        exact h1.symm.trans hr'
      have hcons := List.append_cancel_left heq
      injection hcons with h1 h2
      exact h1.symm

theorem processEntries_count (inc : Path → Bool) (lim : Option (List Path)) (base : Path)
    (es : List (String × FSTree)) (p : Path) :
    ((processEntries inc lim base es).1.map Discovered.path).count p +
      ((processEntries inc lim base es).2.flatMap
        (fun e => subtreePaths.entriesPaths e.1 e.2)).count p ≤
    (subtreePaths.entriesPaths base es).count p := by
  induction es with
  | nil => simp [processEntries, subtreePaths.entriesPaths]
  | cons hd tl ih =>
    rcases hd with ⟨n, t⟩
    simp only [processEntries, subtreePaths.entriesPaths, List.count_append]
    by_cases hI : inc (base ++ [n])
    · cases t with
      | file mt ct =>
        by_cases hS : scopeCheckOk lim (base ++ [n])
        · simp only [hI, hS, if_true, subtreePaths]
          simp only [List.map_cons, List.count_cons]
          have := ih
          simp only [List.count_cons, List.count_nil]
          omega
        · simp only [hI, hS, if_true, Bool.false_eq_true, if_false, subtreePaths]
          have := ih
          simp only [List.count_cons, List.count_nil]
          omega
      | dir es' =>
        simp only [hI, if_true, subtreePaths]
        simp only [List.flatMap_cons, List.count_append, List.count_cons]
        have := ih
        omega
    · simp only [hI, Bool.false_eq_true, if_false]
      have := ih
      have hnonneg : (0 : Nat) ≤ (subtreePaths (base ++ [n]) t).count p := Nat.zero_le _
      omega

theorem walkQueue_count (inc : Path → Bool) (lim : Option (List Path)) (p : Path) :
    ∀ (n : Nat) (q : List (Path × List (String × FSTree))), queueMeasure q ≤ n →
    ((walkQueue inc lim q).map Discovered.path).count p ≤
      (q.flatMap (fun e => subtreePaths.entriesPaths e.1 e.2)).count p := by
  intro n
  induction n with
  | zero =>
    intro q hq
    cases q with
    | nil => simp [walkQueue]
    | cons e rest => simp [queueMeasure] at hq
  | succ n ihn =>
    intro q hq
    cases q with
    | nil => simp [walkQueue]
    | cons e rest =>
      rw [walkQueue]
      have hmeas : queueMeasure (rest ++ (processEntries inc lim e.1 e.2).2) ≤ n := by
        rw [queueMeasure_append]
        have := processEntries_measure inc lim e.1 e.2
        simp only [queueMeasure] at hq
        omega
      have hrec := ihn (rest ++ (processEntries inc lim e.1 e.2).2) hmeas
      have hpe := processEntries_count inc lim e.1 e.2 p
      simp only [List.map_append, List.count_append, List.flatMap_append,
        List.flatMap_cons] at *
      omega

theorem count_beq_instances_eq (p : Path) (l : List Path) :
    @List.count Path List.instBEq p l = @List.count Path instBEqOfDecidableEq p l := by
  induction l with
  | nil => rfl
  | cons h t ih =>
    rw [@List.count_cons Path List.instBEq, @List.count_cons Path instBEqOfDecidableEq, ih]
    by_cases hp : h = p
    · simp [hp]
    · simp [hp, beq_iff_eq]

/-- The paths of the files discovered by the traversal are distinct
whenever the source tree has distinct entry names at every level. -/
theorem discoveredFiles_paths_nodup (m : String → String → Bool) (cfg : PackConfig)
    (lim : Option (List Path)) (es : List (String × FSTree))
    (hgood : goodEntries es = true) :
    ((discoveredFiles m cfg lim (some es)).map Discovered.path).Nodup := by
  rw [List.nodup_iff_count_le_one]
  intro p
  have hw := walkQueue_count (shouldInclude m cfg) lim p (queueMeasure [(cfg.srcDir, es)])
    [(cfg.srcDir, es)] le_rfl
  have hnd := (paths_nodup (treeSize.entriesSize es)).2 es le_rfl hgood cfg.srcDir
  have hle := List.nodup_iff_count_le_one.mp hnd p
  have hw2 : @List.count Path instBEqOfDecidableEq p
      ((walkQueue (shouldInclude m cfg) lim [(cfg.srcDir, es)]).map Discovered.path) ≤
      @List.count Path instBEqOfDecidableEq p
        ([(cfg.srcDir, es)].flatMap fun e => subtreePaths.entriesPaths e.1 e.2) := by
    rw [← count_beq_instances_eq, ← count_beq_instances_eq]
    exact hw
  have hflat : ([(cfg.srcDir, es)].flatMap fun e => subtreePaths.entriesPaths e.1 e.2) =
      subtreePaths.entriesPaths cfg.srcDir es := by simp
  rw [hflat] at hw2
  simpa [discoveredFiles] using le_trans hw2 hle

/-- Any change produced by `checkFileChanges` carries the checked file's
own path. -/
theorem checkFileChange_path (cache : Cache) (d : Discovered) (c : FileChange)
    (h : checkFileChange cache d = some c) : c.filePath = d.path := by
  rw [checkFileChange] at h
  split at h
  · cases h; rfl
  · split at h
    · cases h; rfl
    · simp at h

/-- Traversal changes for a path that was not diff-checked: none. -/
theorem filterMap_check_filter_nil (cache : Cache) (files : List Discovered) (p : Path)
    (hnp : p ∉ files.map Discovered.path) :
    (files.filterMap (checkFileChange cache)).filter (fun c => c.filePath == p) = [] := by
  induction files with
  | nil => simp
  | cons d rest ih =>
    have hdp : d.path ≠ p := by
      intro he
      exact hnp (by simp [he])
    have hrest : p ∉ rest.map Discovered.path := by
      intro hm
      exact hnp (by simp [hm])
    rw [List.filterMap_cons]
    cases hchk : checkFileChange cache d with
    | none => exact ih hrest
    | some c =>
      have hcp : c.filePath = d.path := checkFileChange_path cache d c hchk
      rw [List.filter_cons]
      simp only [hcp, beq_iff_eq, hdp, if_false]
      exact ih hrest

/-- Traversal changes for a diff-checked path occurring once: exactly the
outcome of its own `checkFileChanges`. -/
theorem filterMap_check_filter_eq (cache : Cache) (files : List Discovered) (p : Path)
    (hcount : (files.map Discovered.path).count p ≤ 1) (d : Discovered)
    (hd : d ∈ files) (hp : d.path = p) :
    (files.filterMap (checkFileChange cache)).filter (fun c => c.filePath == p) =
      (checkFileChange cache d).toList := by
  induction files with
  | nil => cases hd
  | cons e rest ih =>
    rcases List.mem_cons.mp hd with he | hrest
    · subst he
      have hnp : p ∉ rest.map Discovered.path := by
        intro hm
        have h1 : 0 < (rest.map Discovered.path).count p := List.count_pos_iff.mpr hm
        have h2 : ((d :: rest).map Discovered.path).count p =
            (rest.map Discovered.path).count p + 1 := by
          rw [List.map_cons, hp, List.count_cons_self]
        omega
      rw [List.filterMap_cons]
      cases hchk : checkFileChange cache d with
      | none =>
        simp only [Option.toList_none]
        exact filterMap_check_filter_nil cache rest p hnp
      | some c =>
        have hcp : c.filePath = d.path := checkFileChange_path cache d c hchk
        rw [List.filter_cons]
        simp only [hcp, hp, beq_self_eq_true, if_true]
        rw [filterMap_check_filter_nil cache rest p hnp]
        rfl
    · have hmemp : p ∈ rest.map Discovered.path := by
        simpa [hp] using List.mem_map_of_mem Discovered.path hrest
      have hep : e.path ≠ p := by
        intro he
        have h1 : 0 < (rest.map Discovered.path).count p := List.count_pos_iff.mpr hmemp
        have h2 : ((e :: rest).map Discovered.path).count p =
            (rest.map Discovered.path).count p + 1 := by
          rw [List.map_cons, he, List.count_cons_self]
        omega
      have hcount' : (rest.map Discovered.path).count p ≤ 1 := by
        rw [List.map_cons, List.count_cons_of_ne (Ne.symm hep)] at hcount
        exact hcount
      rw [List.filterMap_cons]
      cases hchk : checkFileChange cache e with
      | none => exact ih hcount' hrest
      | some c =>
        have hcp : c.filePath = e.path := checkFileChange_path cache e c hchk
        rw [List.filter_cons]
        simp only [hcp, beq_iff_eq, hep, if_false]
        exact ih hcount' hrest

/-- The removal loop (no scope limit) emits nothing for an uncached path. -/
theorem removeLoop_filter_notmem (cur : List Path) (cache : Cache) (p : Path)
    (hnp : p ∉ cache.map Prod.fst) :
    (removeLoop none cur cache).filter (fun c => c.filePath == p) = [] := by
  induction cache with
  | nil => simp [removeLoop]
  | cons e rest ih =>
    rcases e with ⟨q, ts⟩
    have hqp : q ≠ p := by
      intro he
      exact hnp (by simp [he])
    have hrest : p ∉ rest.map Prod.fst := by
      intro hm
      exact hnp (by simp [hm])
    rw [removeLoop]
    simp only [Option.isSome_none, Bool.false_and, Bool.false_eq_true, if_false]
    rw [List.filter_append, ih hrest]
    by_cases hc : cur.contains q <;> simp [hc, hqp]

/-- The removal loop (no scope limit) emits nothing for a path that is
among the current files. -/
theorem removeLoop_filter_current (cur : List Path) (cache : Cache) (p : Path)
    (hcur : cur.contains p = true) :
    (removeLoop none cur cache).filter (fun c => c.filePath == p) = [] := by
  induction cache with
  | nil => simp [removeLoop]
  | cons e rest ih =>
    rcases e with ⟨q, ts⟩
    rw [removeLoop]
    simp only [Option.isSome_none, Bool.false_and, Bool.false_eq_true, if_false]
    rw [List.filter_append, ih]
    by_cases hqp : q = p
    · have hmem : p ∈ cur := by simpa using hcur
      simp [hqp, hcur, hmem]
    · by_cases hc : cur.contains q <;> simp [hc, hqp]

/-- The removal loop (no scope limit) emits exactly one `remove` for a
cached path that is not among the current files. -/
theorem removeLoop_filter_removed (cur : List Path) (cache : Cache) (p : Path) (ts : Int)
    (hkeys : (cache.map Prod.fst).count p ≤ 1) (hmem : (p, ts) ∈ cache)
    (hcur : cur.contains p = false) :
    (removeLoop none cur cache).filter (fun c => c.filePath == p) =
      [⟨.remove, p⟩] := by
  induction cache with
  | nil => cases hmem
  | cons e rest ih =>
    rcases e with ⟨q, ts'⟩
    rw [removeLoop]
    simp only [Option.isSome_none, Bool.false_and, Bool.false_eq_true, if_false]
    rw [List.filter_append]
    rcases List.mem_cons.mp hmem with he | hrest
    · have hqp : q = p := by cases he; rfl
      have hnp : p ∉ rest.map Prod.fst := by
        intro hm
        have h1 : 0 < (rest.map Prod.fst).count p := List.count_pos_iff.mpr hm
        have h2 : (((q, ts') :: rest).map Prod.fst).count p =
            (rest.map Prod.fst).count p + 1 := by
          rw [List.map_cons, hqp, List.count_cons_self]
        omega
      have hncur : p ∉ cur := by simpa using hcur
      rw [removeLoop_filter_notmem cur rest p hnp]
      simp [hqp, hncur]
    · have hmemp : p ∈ rest.map Prod.fst := List.mem_map_of_mem Prod.fst hrest
      have hqp : q ≠ p := by
        intro he
        have h1 : 0 < (rest.map Prod.fst).count p := List.count_pos_iff.mpr hmemp
        have h2 : (((q, ts') :: rest).map Prod.fst).count p =
            (rest.map Prod.fst).count p + 1 := by
          rw [List.map_cons, he, List.count_cons_self]
        omega
      have hkeys' : (rest.map Prod.fst).count p ≤ 1 := by
        rw [List.map_cons] at hkeys
        rw [List.count_cons_of_ne (Ne.symm hqp)] at hkeys
        exact hkeys
      rw [ih hkeys' hrest]
      by_cases hc : cur.contains q <;> simp [hc, hqp]

/-- C2: for every included file discovered during change detection with no
scope limit in effect — absent from the old cache ⇒ exactly one `add`;
present with a different modification timestamp ⇒ exactly one `update`;
timestamp equal to the cached one ⇒ no change for it; and for every path
in the old cache no longer found by the traversal ⇒ exactly one `remove`. -/
theorem claim_C2_diff_policy (m : String → String → Bool) (cfg : PackConfig)
    (cache : Cache) (es : List (String × FSTree))
    (hgood : goodEntries es = true)
    (hkeys : (cache.map Prod.fst).Nodup) :
    (∀ d ∈ discoveredFiles m cfg none (some es),
      cache.lookup d.path = none →
      (detectSourceTreeChanges m cfg cache none (some es)).1.filter
        (fun c => c.filePath == d.path) = [⟨.add, d.path⟩]) ∧
    (∀ d ∈ discoveredFiles m cfg none (some es), ∀ ts : Int,
      cache.lookup d.path = some ts → ts ≠ d.mtime →
      (detectSourceTreeChanges m cfg cache none (some es)).1.filter
        (fun c => c.filePath == d.path) = [⟨.update, d.path⟩]) ∧
    (∀ d ∈ discoveredFiles m cfg none (some es),
      cache.lookup d.path = some d.mtime →
      (detectSourceTreeChanges m cfg cache none (some es)).1.filter
        (fun c => c.filePath == d.path) = []) ∧
    (∀ p ts, (p, ts) ∈ cache →
      p ∉ (discoveredFiles m cfg none (some es)).map Discovered.path →
      (detectSourceTreeChanges m cfg cache none (some es)).1.filter
        (fun c => c.filePath == p) = [⟨.remove, p⟩]) := by
  have hnodup := discoveredFiles_paths_nodup m cfg none es hgood
  have hcnt : ∀ p, ((discoveredFiles m cfg none (some es)).map Discovered.path).count p ≤ 1 := by
    intro p
    rw [count_beq_instances_eq]
    exact List.nodup_iff_count_le_one.mp hnodup p
  have hkcnt : ∀ p, (cache.map Prod.fst).count p ≤ 1 := by
    intro p
    rw [count_beq_instances_eq]
    exact List.nodup_iff_count_le_one.mp hkeys p
  have hsplit : ∀ p, (detectSourceTreeChanges m cfg cache none (some es)).1.filter
      (fun c => c.filePath == p) =
      ((discoveredFiles m cfg none (some es)).filterMap (checkFileChange cache)).filter
        (fun c => c.filePath == p) ++
      (removeLoop none ((discoveredFiles m cfg none (some es)).map (fun d => d.path))
        cache).filter (fun c => c.filePath == p) := by
    intro p
    simp only [detectSourceTreeChanges]
    rw [List.filter_append]
  have hcur_of_mem : ∀ d ∈ discoveredFiles m cfg none (some es),
      ((discoveredFiles m cfg none (some es)).map (fun d => d.path)).contains d.path = true := by
    intro d hd
    simpa using List.mem_map_of_mem (fun d => d.path) hd
  refine ⟨?_, ?_, ?_, ?_⟩
  · intro d hd hlu
    rw [hsplit d.path,
      filterMap_check_filter_eq cache _ d.path (hcnt d.path) d hd rfl,
      removeLoop_filter_current _ cache d.path (hcur_of_mem d hd)]
    rw [checkFileChange, hlu]
    simp
  · intro d hd ts hlu hts
    rw [hsplit d.path,
      filterMap_check_filter_eq cache _ d.path (hcnt d.path) d hd rfl,
      removeLoop_filter_current _ cache d.path (hcur_of_mem d hd)]
    rw [checkFileChange, hlu]
    simp [hts]
  · intro d hd hlu
    rw [hsplit d.path,
      filterMap_check_filter_eq cache _ d.path (hcnt d.path) d hd rfl,
      removeLoop_filter_current _ cache d.path (hcur_of_mem d hd)]
    rw [checkFileChange, hlu]
    simp
  · intro p ts hmem hnp
    have hncur : ((discoveredFiles m cfg none (some es)).map
        (fun d => d.path)).contains p = false := by
      simpa using hnp
    rw [hsplit p, filterMap_check_filter_nil cache _ p hnp,
      removeLoop_filter_removed _ cache p ts (hkcnt p) hmem hncur]
    rfl

/-- Source tree for the C2 witness: an updated file `a`, an unchanged file
`u`, and a brand-new nested file `d/b`. -/
def esC2 : List (String × FSTree) :=
  [("a", .file 3 "x"), ("u", .file 7 "z"), ("d", .dir [("b", .file 4 "y")])]

/-- Old cache for the C2 witness: a deleted file `gone`, a stale timestamp
for `a`, and an up-to-date entry for `u`. -/
def cacheC2 : Cache := [(["s", "gone"], 9), (["s", "a"], 9), (["s", "u"], 7)]

/-- C2, witnessed: the brand-new `d/b` gets exactly one `add`, the
stale-timestamp `a` exactly one `update`, the unchanged `u` no change, and
the on-disk-absent `gone` exactly one `remove`. -/
theorem claim_C2_diff_policy_witness :
    (detectSourceTreeChanges matcherStub cfgScoped cacheC2 none (some esC2)).1.filter
        (fun c => c.filePath == ["s", "d", "b"]) = [⟨.add, ["s", "d", "b"]⟩] ∧
    (detectSourceTreeChanges matcherStub cfgScoped cacheC2 none (some esC2)).1.filter
        (fun c => c.filePath == ["s", "a"]) = [⟨.update, ["s", "a"]⟩] ∧
    (detectSourceTreeChanges matcherStub cfgScoped cacheC2 none (some esC2)).1.filter
        (fun c => c.filePath == ["s", "u"]) = [] ∧
    (detectSourceTreeChanges matcherStub cfgScoped cacheC2 none (some esC2)).1.filter
        (fun c => c.filePath == ["s", "gone"]) = [⟨.remove, ["s", "gone"]⟩] := by
  have hfiles : discoveredFiles matcherStub cfgScoped none (some esC2) =
      [⟨["s", "a"], 3, "x"⟩, ⟨["s", "u"], 7, "z"⟩, ⟨["s", "d", "b"], 4, "y"⟩] := by
    simp [discoveredFiles, walkQueue, processEntries, shouldInclude, testInclusion,
      scopeCheckOk, cfgScoped, esC2]
  have hmain := claim_C2_diff_policy matcherStub cfgScoped cacheC2 esC2
    (by decide) (by decide)
  refine ⟨?_, ?_, ?_, ?_⟩
  · exact hmain.1 ⟨["s", "d", "b"], 4, "y"⟩ (by rw [hfiles]; decide) (by decide)
  · exact hmain.2.1 ⟨["s", "a"], 3, "x"⟩ (by rw [hfiles]; decide) 9 (by decide) (by decide)
  · exact hmain.2.2.1 ⟨["s", "u"], 7, "z"⟩ (by rw [hfiles]; decide) (by decide)
  · exact hmain.2.2.2 ["s", "gone"] 9 (by decide) (by rw [hfiles]; decide)

/-! ## Claim C4: cancel-and-restart exclusivity

Ordering properties of the event log (newest event first).  The
cancel-wait-restart ordering itself holds (see
`cancelRestart_start_ordering`): the replacement attempt starts, and
performs its mutations, only after the in-flight attempt's `Promise.all`
settled and its `finally` cleared `_currentController`, and a signalled
cancellation precedes every replacement-attempt mutation.  The claimed
mutual exclusion, however, fails in the code: `Promise.all` settles
fail-fast on the first pack-build rejection, so a dangling sibling pack
build of the cancelled attempt keeps mutating after the clear and after
the replacement attempt has started — `claim_C4_code_divergence`
exhibits the interleaving. -/

/-- Every replacement-attempt mutation is preceded by attempt 1's clear. -/
def mut2AfterCleared1 (log : List Ev) : Prop :=
  ∀ l1 l2, log = l1 ++ Ev.mutated 2 :: l2 → Ev.cleared 1 ∈ l2

/-- When attempt 1's abort was ever signalled, it was signalled before
every replacement-attempt mutation. -/
def mut2AfterAbort (log : List Ev) : Prop :=
  ∀ l1 l2, log = l1 ++ Ev.mutated 2 :: l2 → Ev.abortSignalled 1 ∈ log →
    Ev.abortSignalled 1 ∈ l2

/-- The replacement attempt starts only after attempt 1's clear. -/
def started2AfterCleared1 (log : List Ev) : Prop :=
  ∀ l1 l2, log = l1 ++ Ev.started 2 :: l2 → Ev.cleared 1 ∈ l2

/-- Attempt 1 performs no mutation after its clear. -/
def noMut1AfterCleared1 (log : List Ev) : Prop :=
  ∀ l1 l2, log = l1 ++ Ev.cleared 1 :: l2 → Ev.mutated 1 ∉ l1

/-- Every attempt-1 mutation precedes the replacement attempt's start
(mutual exclusion of the two attempts' mutations across the restart). -/
def noMut1AfterStarted2 (log : List Ev) : Prop :=
  ∀ l1 l2, log = l1 ++ Ev.started 2 :: l2 → Ev.mutated 1 ∉ l1

theorem cons_split {e' e : Ev} {log l1 l2 : List Ev} (h : e' :: log = l1 ++ e :: l2) :
    (l1 = [] ∧ e' = e ∧ l2 = log) ∨ ∃ l1', l1 = e' :: l1' ∧ log = l1' ++ e :: l2 := by
  cases l1 with
  | nil =>
    simp only [List.nil_append, List.cons.injEq] at h
    exact Or.inl ⟨rfl, h.1, h.2.symm⟩
  | cons x xs =>
    simp only [List.cons_append, List.cons.injEq] at h
    exact Or.inr ⟨xs, by simp [h.1], h.2⟩

theorem mut2AfterCleared1_cons_other {log : List Ev} {e : Ev} (he : e ≠ .mutated 2)
    (h : mut2AfterCleared1 log) : mut2AfterCleared1 (e :: log) := by
  intro l1 l2 hs
  rcases cons_split hs with ⟨-, hee, -⟩ | ⟨l1', -, hlog⟩
  · exact absurd hee he
  · exact h l1' l2 hlog

theorem mut2AfterCleared1_cons_mut2 {log : List Ev} (hcl : Ev.cleared 1 ∈ log)
    (h : mut2AfterCleared1 log) : mut2AfterCleared1 (Ev.mutated 2 :: log) := by
  intro l1 l2 hs
  rcases cons_split hs with ⟨-, -, hl2⟩ | ⟨l1', -, hlog⟩
  · exact hl2 ▸ hcl
  · exact h l1' l2 hlog

theorem mut2AfterAbort_cons_other {log : List Ev} {e : Ev} (he : e ≠ .mutated 2)
    (hea : e ≠ .abortSignalled 1) (h : mut2AfterAbort log) : mut2AfterAbort (e :: log) := by
  intro l1 l2 hs habs
  have habs' : Ev.abortSignalled 1 ∈ log := by
    rcases List.mem_cons.mp habs with hx | hx
    · exact absurd hx.symm hea
    · exact hx
  rcases cons_split hs with ⟨-, hee, -⟩ | ⟨l1', -, hlog⟩
  · exact absurd hee he
  · exact h l1' l2 hlog habs'

theorem mut2AfterAbort_cons_mut2 {log : List Ev} (h : mut2AfterAbort log) :
    mut2AfterAbort (Ev.mutated 2 :: log) := by
  intro l1 l2 hs habs
  have habs' : Ev.abortSignalled 1 ∈ log := by
    rcases List.mem_cons.mp habs with hx | hx
    · cases hx
    · exact hx
  rcases cons_split hs with ⟨-, -, hl2⟩ | ⟨l1', -, hlog⟩
  · exact hl2 ▸ habs'
  · exact h l1' l2 hlog habs'

theorem mut2AfterAbort_cons_abort {log : List Ev} (hm2 : Ev.mutated 2 ∉ log) :
    mut2AfterAbort (Ev.abortSignalled 1 :: log) := by
  intro l1 l2 hs habs
  rcases cons_split hs with ⟨-, hee, -⟩ | ⟨l1', -, hlog⟩
  · cases hee
  · exact absurd (hlog ▸ (by simp : Ev.mutated 2 ∈ l1' ++ Ev.mutated 2 :: l2)) hm2

theorem started2AfterCleared1_cons_other {log : List Ev} {e : Ev} (he : e ≠ .started 2)
    (h : started2AfterCleared1 log) : started2AfterCleared1 (e :: log) := by
  intro l1 l2 hs
  rcases cons_split hs with ⟨-, hee, -⟩ | ⟨l1', -, hlog⟩
  · exact absurd hee he
  · exact h l1' l2 hlog

theorem started2AfterCleared1_cons_started {log : List Ev} (hcl : Ev.cleared 1 ∈ log)
    (h : started2AfterCleared1 log) : started2AfterCleared1 (Ev.started 2 :: log) := by
  intro l1 l2 hs
  rcases cons_split hs with ⟨-, -, hl2⟩ | ⟨l1', -, hlog⟩
  · exact hl2 ▸ hcl
  · exact h l1' l2 hlog

theorem mem_cons_ne {e e' : Ev} {log : List Ev} (hne : e ≠ e') (h : e ∈ e' :: log) :
    e ∈ log :=
  (List.mem_cons.mp h).resolve_left hne

theorem mem_cons_iff_ne {e e' : Ev} {log : List Ev} (hne : e ≠ e') :
    e ∈ e' :: log ↔ e ∈ log :=
  ⟨mem_cons_ne hne, List.mem_cons_of_mem _⟩

theorem taskStep_src_running {ab : Bool} {t t' : TaskState} {e : Bool}
    (h : TaskStep ab t t' e) : ∃ steps, t = TaskState.running steps := by
  cases h <;> exact ⟨_, rfl⟩

/-- The inductive invariant of the cancel-and-restart protocol. -/
structure ProtocolInv (s : SysState) : Prop where
  m1 : s.main1Done = true ↔ Ev.cleared 1 ∈ s.log
  m2 : s.main1Done = false → s.current = some 1
  m3 : s.reb = [RStep.startBuild] → s.main1Done = true
  m4 : s.started2 = true → Ev.started 2 ∈ s.log ∧ Ev.cleared 1 ∈ s.log
  m5 : s.started2 = false → s.t21 = .doneOk ∧ s.t22 = .doneOk
  m6 : s.started2 = false → Ev.mutated 2 ∉ s.log
  m7 : s.started2 = true → s.reb = []
  m8 : s.reb = [.waitClear, .startBuild] ∨ s.reb = [.startBuild] ∨
    s.reb = [.enter] ∨ s.reb = []
  ok1 : mut2AfterCleared1 s.log
  ok2 : mut2AfterAbort s.log
  ok3 : started2AfterCleared1 s.log

theorem protocolInv_init (body11 body12 body21 body22 : List TStep) (ab1 : Bool) :
    ProtocolInv (initState body11 body12 body21 body22 ab1) where
  m1 := by simp [initState]
  m2 := fun _ => rfl
  m3 := by simp [initState]
  m4 := by simp [initState]
  m5 := by simp [initState]
  m6 := by simp [initState]
  m7 := by simp [initState]
  m8 := by simp [initState]
  ok1 := by intro l1 l2 h; simp [initState] at h
  ok2 := by intro l1 l2 h; simp [initState] at h
  ok3 := by intro l1 l2 h; simp [initState] at h

theorem protocolInv_step {s s' : SysState} (hInv : ProtocolInv s) (hstep : SysStep s s') :
    ProtocolInv s' := by
  obtain ⟨m1, m2, m3, m4, m5, m6, m7, m8, ok1, ok2, ok3⟩ := hInv
  cases hstep with
  | t11_step t' emit htask =>
    cases emit with
    | false =>
      exact { m1 := m1, m2 := m2, m3 := m3, m4 := m4, m5 := m5, m6 := m6,
              m7 := m7, m8 := m8, ok1 := ok1, ok2 := ok2, ok3 := ok3 }
    | true =>
      exact
        { m1 := m1.trans (mem_cons_iff_ne (by decide)).symm
          m2 := m2
          m3 := m3
          m4 := fun h2 =>
            ⟨List.mem_cons_of_mem _ (m4 h2).1, List.mem_cons_of_mem _ (m4 h2).2⟩
          m5 := m5
          m6 := fun h2 hm => m6 h2 (mem_cons_ne (by decide) hm)
          m7 := m7
          m8 := m8
          ok1 := mut2AfterCleared1_cons_other (by decide) ok1
          ok2 := mut2AfterAbort_cons_other (by decide) (by decide) ok2
          ok3 := started2AfterCleared1_cons_other (by decide) ok3 }
  | t12_step t' emit htask =>
    cases emit with
    | false =>
      exact { m1 := m1, m2 := m2, m3 := m3, m4 := m4, m5 := m5, m6 := m6,
              m7 := m7, m8 := m8, ok1 := ok1, ok2 := ok2, ok3 := ok3 }
    | true =>
      exact
        { m1 := m1.trans (mem_cons_iff_ne (by decide)).symm
          m2 := m2
          m3 := m3
          m4 := fun h2 =>
            ⟨List.mem_cons_of_mem _ (m4 h2).1, List.mem_cons_of_mem _ (m4 h2).2⟩
          m5 := m5
          m6 := fun h2 hm => m6 h2 (mem_cons_ne (by decide) hm)
          m7 := m7
          m8 := m8
          ok1 := mut2AfterCleared1_cons_other (by decide) ok1
          ok2 := mut2AfterAbort_cons_other (by decide) (by decide) ok2
          ok3 := started2AfterCleared1_cons_other (by decide) ok3 }
  | t21_step t' emit htask =>
    have hst2 : s.started2 = true := by
      cases hs2 : s.started2 with
      | true => rfl
      | false =>
        obtain ⟨steps, hsrc⟩ := taskStep_src_running htask
        rw [(m5 hs2).1] at hsrc
        cases hsrc
    have hsf : s.started2 = false → False := fun h2 => by
      rw [h2] at hst2
      exact absurd hst2 (by decide)
    cases emit with
    | false =>
      exact { m1 := m1, m2 := m2, m3 := m3, m4 := m4,
              m5 := fun h2 => (hsf h2).elim, m6 := m6,
              m7 := m7, m8 := m8, ok1 := ok1, ok2 := ok2, ok3 := ok3 }
    | true =>
      have hcl : Ev.cleared 1 ∈ s.log := (m4 hst2).2
      exact
        { m1 := m1.trans (mem_cons_iff_ne (by decide)).symm
          m2 := m2
          m3 := m3
          m4 := fun h2 =>
            ⟨List.mem_cons_of_mem _ (m4 h2).1, List.mem_cons_of_mem _ (m4 h2).2⟩
          m5 := fun h2 => (hsf h2).elim
          m6 := fun h2 => (hsf h2).elim
          m7 := m7
          m8 := m8
          ok1 := mut2AfterCleared1_cons_mut2 hcl ok1
          ok2 := mut2AfterAbort_cons_mut2 ok2
          ok3 := started2AfterCleared1_cons_other (by decide) ok3 }
  | t22_step t' emit htask =>
    have hst2 : s.started2 = true := by
      cases hs2 : s.started2 with
      | true => rfl
      | false =>
        obtain ⟨steps, hsrc⟩ := taskStep_src_running htask
        rw [(m5 hs2).2] at hsrc
        cases hsrc
    have hsf : s.started2 = false → False := fun h2 => by
      rw [h2] at hst2
      exact absurd hst2 (by decide)
    cases emit with
    | false =>
      exact { m1 := m1, m2 := m2, m3 := m3, m4 := m4,
              m5 := fun h2 => (hsf h2).elim, m6 := m6,
              m7 := m7, m8 := m8, ok1 := ok1, ok2 := ok2, ok3 := ok3 }
    | true =>
      have hcl : Ev.cleared 1 ∈ s.log := (m4 hst2).2
      exact
        { m1 := m1.trans (mem_cons_iff_ne (by decide)).symm
          m2 := m2
          m3 := m3
          m4 := fun h2 =>
            ⟨List.mem_cons_of_mem _ (m4 h2).1, List.mem_cons_of_mem _ (m4 h2).2⟩
          m5 := fun h2 => (hsf h2).elim
          m6 := fun h2 => (hsf h2).elim
          m7 := m7
          m8 := m8
          ok1 := mut2AfterCleared1_cons_mut2 hcl ok1
          ok2 := mut2AfterAbort_cons_mut2 ok2
          ok3 := started2AfterCleared1_cons_other (by decide) ok3 }
  | main1_settle hmd hset =>
    exact
      { m1 := by simp
        m2 := fun h2 => nomatch h2
        m3 := fun _ => rfl
        m4 := fun h2 =>
          ⟨List.mem_cons_of_mem _ (m4 h2).1, List.mem_cons_self _ _⟩
        m5 := m5
        m6 := fun h2 hm => m6 h2 (mem_cons_ne (by decide) hm)
        m7 := m7
        m8 := m8
        ok1 := mut2AfterCleared1_cons_other (by decide) ok1
        ok2 := mut2AfterAbort_cons_other (by decide) (by decide) ok2
        ok3 := started2AfterCleared1_cons_other (by decide) ok3 }
  | main2_settle hst2 hm2d hset =>
    have hmd1 : s.main1Done = true := m1.mpr (m4 hst2).2
    have hsf : s.started2 = false → False := fun h2 => by
      rw [h2] at hst2
      exact absurd hst2 (by decide)
    exact
      { m1 := m1.trans (mem_cons_iff_ne (by decide)).symm
        m2 := fun h2 => by
          rw [h2] at hmd1
          exact absurd hmd1 (by decide)
        m3 := fun _ => hmd1
        m4 := fun h2 =>
          ⟨List.mem_cons_of_mem _ (m4 h2).1, List.mem_cons_of_mem _ (m4 h2).2⟩
        m5 := m5
        m6 := fun h2 => (hsf h2).elim
        m7 := m7
        m8 := m8
        ok1 := mut2AfterCleared1_cons_other (by decide) ok1
        ok2 := mut2AfterAbort_cons_other (by decide) (by decide) ok2
        ok3 := started2AfterCleared1_cons_other (by decide) ok3 }
  | reb_abort rest h hcur hab =>
    have hst2f : s.started2 = false := by
      cases hs2 : s.started2 with
      | false => rfl
      | true => exact absurd (m7 hs2) (by rw [h]; simp)
    have hnm2 : Ev.mutated 2 ∉ s.log := m6 hst2f
    exact
      { m1 := m1.trans (mem_cons_iff_ne (by decide)).symm
        m2 := m2
        m3 := by intro hx; simp at hx
        m4 := fun h2 =>
          ⟨List.mem_cons_of_mem _ (m4 h2).1, List.mem_cons_of_mem _ (m4 h2).2⟩
        m5 := m5
        m6 := fun h2 hm => m6 h2 (mem_cons_ne (by decide) hm)
        m7 := fun h2 => by
          rw [hst2f] at h2
          exact absurd h2 (by decide)
        m8 := Or.inl rfl
        ok1 := mut2AfterCleared1_cons_other (by decide) ok1
        ok2 := mut2AfterAbort_cons_abort hnm2
        ok3 := started2AfterCleared1_cons_other (by decide) ok3 }
  | reb_drop rest h hcur hab =>
    exact
      { m1 := m1, m2 := m2
        m3 := by intro hx; simp at hx
        m4 := m4, m5 := m5, m6 := m6
        m7 := fun _ => rfl
        m8 := Or.inr (Or.inr (Or.inr rfl))
        ok1 := ok1, ok2 := ok2, ok3 := ok3 }
  | reb_enter_idle rest h hcur =>
    have hmd : s.main1Done = true := by
      cases hmd : s.main1Done with
      | true => rfl
      | false => rw [m2 hmd] at hcur; cases hcur
    exact
      { m1 := m1, m2 := m2
        m3 := fun _ => hmd
        m4 := m4, m5 := m5, m6 := m6
        m7 := fun h2 => absurd (m7 h2) (by rw [h]; simp)
        m8 := Or.inr (Or.inl rfl)
        ok1 := ok1, ok2 := ok2, ok3 := ok3 }
  | reb_wait rest h hcur =>
    have hmd : s.main1Done = true := by
      cases hmd : s.main1Done with
      | true => rfl
      | false => rw [m2 hmd] at hcur; cases hcur
    have hrest : rest = [RStep.startBuild] := by
      rcases m8 with h6 | h6 | h6 | h6 <;> rw [h6] at h
      · cases h; rfl
      · cases h
      · cases h
      · cases h
    exact
      { m1 := m1, m2 := m2
        m3 := fun _ => hmd
        m4 := m4, m5 := m5, m6 := m6
        m7 := fun h2 => absurd (m7 h2) (by rw [h]; simp)
        m8 := Or.inr (Or.inl hrest)
        ok1 := ok1, ok2 := ok2, ok3 := ok3 }
  | reb_start h =>
    have hmd : s.main1Done = true := m3 h
    have hcl : Ev.cleared 1 ∈ s.log := m1.mp hmd
    exact
      { m1 := m1.trans (mem_cons_iff_ne (by decide)).symm
        m2 := fun h2 => by
          rw [h2] at hmd
          exact absurd hmd (by decide)
        m3 := fun _ => hmd
        m4 := fun _ => ⟨List.mem_cons_self _ _, List.mem_cons_of_mem _ hcl⟩
        m5 := fun h2 => nomatch h2
        m6 := fun h2 => nomatch h2
        m7 := fun _ => rfl
        m8 := Or.inr (Or.inr (Or.inr rfl))
        ok1 := mut2AfterCleared1_cons_other (by decide) ok1
        ok2 := mut2AfterAbort_cons_other (by decide) (by decide) ok2
        ok3 := started2AfterCleared1_cons_started hcl ok3 }

/-- The cancel-wait-restart ordering that does hold in the code: in every
reachable interleaving, the replacement attempt starts — and performs its
mutations — only after the in-flight attempt's `_currentController` was
observed cleared, and when the in-flight attempt's cancellation was
signalled at all, it was signalled before every replacement-attempt
mutation. -/
theorem cancelRestart_start_ordering (body11 body12 body21 body22 : List TStep)
    (ab1 : Bool) (s : SysState)
    (hreach : SysReachable (initState body11 body12 body21 body22 ab1) s) :
    mut2AfterCleared1 s.log ∧ started2AfterCleared1 s.log ∧ mut2AfterAbort s.log := by
  have hinv : ProtocolInv s := by
    induction hreach with
    | refl => exact protocolInv_init body11 body12 body21 body22 ab1
    | tail hr hstep ih => exact protocolInv_step ih hstep
  exact ⟨hinv.ok1, hinv.ok3, hinv.ok2⟩

/-- C4 evaluated at the failing interleaving: attempt 1 builds two packs
(one at a token check, the other about to write); the rebuild aborts the
token; the first pack observes the abort and rejects; `Promise.all`
settles fail-fast and the `finally` clears `_currentController` while the
second pack build dangles; the poll passes, the replacement attempt
starts and writes; then the dangling first-attempt pack write lands.  The
final log shows an attempt-1 mutation after the clear, after the
replacement attempt's start, and even after a replacement-attempt
mutation — so the claimed "at most one build attempt mutates the
staging/target directories at any instant" fails on the code. -/
theorem claim_C4_code_divergence :
    SysReachable (initState [TStep.check] [TStep.work] [TStep.work] [] false)
      { current := some 2, aborted1 := true, aborted2 := false,
        t11 := .doneErr, t12 := .running [], t21 := .running [], t22 := .running [],
        main1Done := true, main2Done := false, started2 := true,
        reb := [], body21 := [TStep.work], body22 := [],
        log := [Ev.mutated 1, Ev.mutated 2, Ev.started 2, Ev.cleared 1,
          Ev.abortSignalled 1] } ∧
    ¬ noMut1AfterCleared1
      [Ev.mutated 1, Ev.mutated 2, Ev.started 2, Ev.cleared 1, Ev.abortSignalled 1] ∧
    ¬ noMut1AfterStarted2
      [Ev.mutated 1, Ev.mutated 2, Ev.started 2, Ev.cleared 1, Ev.abortSignalled 1] := by
  refine ⟨?_, ?_, ?_⟩
  · have h1 : SysStep
        { current := some 1, aborted1 := false, aborted2 := false,
          t11 := .running [TStep.check], t12 := .running [TStep.work],
          t21 := .doneOk, t22 := .doneOk,
          main1Done := false, main2Done := false, started2 := false,
          reb := [RStep.enter], body21 := [TStep.work], body22 := [], log := [] }
        { current := some 1, aborted1 := true, aborted2 := false,
          t11 := .running [TStep.check], t12 := .running [TStep.work],
          t21 := .doneOk, t22 := .doneOk,
          main1Done := false, main2Done := false, started2 := false,
          reb := [RStep.waitClear, RStep.startBuild], body21 := [TStep.work],
          body22 := [], log := [Ev.abortSignalled 1] } :=
      SysStep.reb_abort _ _ rfl rfl rfl
    have h2 : SysStep
        { current := some 1, aborted1 := true, aborted2 := false,
          t11 := .running [TStep.check], t12 := .running [TStep.work],
          t21 := .doneOk, t22 := .doneOk,
          main1Done := false, main2Done := false, started2 := false,
          reb := [RStep.waitClear, RStep.startBuild], body21 := [TStep.work],
          body22 := [], log := [Ev.abortSignalled 1] }
        { current := some 1, aborted1 := true, aborted2 := false,
          t11 := .doneErr, t12 := .running [TStep.work],
          t21 := .doneOk, t22 := .doneOk,
          main1Done := false, main2Done := false, started2 := false,
          reb := [RStep.waitClear, RStep.startBuild], body21 := [TStep.work],
          body22 := [], log := [Ev.abortSignalled 1] } :=
      SysStep.t11_step _ _ _ (TaskStep.check_aborted _ rfl)
    have h3 : SysStep
        { current := some 1, aborted1 := true, aborted2 := false,
          t11 := .doneErr, t12 := .running [TStep.work],
          t21 := .doneOk, t22 := .doneOk,
          main1Done := false, main2Done := false, started2 := false,
          reb := [RStep.waitClear, RStep.startBuild], body21 := [TStep.work],
          body22 := [], log := [Ev.abortSignalled 1] }
        { current := none, aborted1 := true, aborted2 := false,
          t11 := .doneErr, t12 := .running [TStep.work],
          t21 := .doneOk, t22 := .doneOk,
          main1Done := true, main2Done := false, started2 := false,
          reb := [RStep.waitClear, RStep.startBuild], body21 := [TStep.work],
          body22 := [], log := [Ev.cleared 1, Ev.abortSignalled 1] } :=
      SysStep.main1_settle _ rfl (Or.inr (Or.inl rfl))
    have h4 : SysStep
        { current := none, aborted1 := true, aborted2 := false,
          t11 := .doneErr, t12 := .running [TStep.work],
          t21 := .doneOk, t22 := .doneOk,
          main1Done := true, main2Done := false, started2 := false,
          reb := [RStep.waitClear, RStep.startBuild], body21 := [TStep.work],
          body22 := [], log := [Ev.cleared 1, Ev.abortSignalled 1] }
        { current := none, aborted1 := true, aborted2 := false,
          t11 := .doneErr, t12 := .running [TStep.work],
          t21 := .doneOk, t22 := .doneOk,
          main1Done := true, main2Done := false, started2 := false,
          reb := [RStep.startBuild], body21 := [TStep.work], body22 := [],
          log := [Ev.cleared 1, Ev.abortSignalled 1] } :=
      SysStep.reb_wait _ _ rfl rfl
    have h5 : SysStep
        { current := none, aborted1 := true, aborted2 := false,
          t11 := .doneErr, t12 := .running [TStep.work],
          t21 := .doneOk, t22 := .doneOk,
          main1Done := true, main2Done := false, started2 := false,
          reb := [RStep.startBuild], body21 := [TStep.work], body22 := [],
          log := [Ev.cleared 1, Ev.abortSignalled 1] }
        { current := some 2, aborted1 := true, aborted2 := false,
          t11 := .doneErr, t12 := .running [TStep.work],
          t21 := .running [TStep.work], t22 := .running [],
          main1Done := true, main2Done := false, started2 := true,
          reb := [], body21 := [TStep.work], body22 := [],
          log := [Ev.started 2, Ev.cleared 1, Ev.abortSignalled 1] } :=
      SysStep.reb_start _ rfl
    have h6 : SysStep
        { current := some 2, aborted1 := true, aborted2 := false,
          t11 := .doneErr, t12 := .running [TStep.work],
          t21 := .running [TStep.work], t22 := .running [],
          main1Done := true, main2Done := false, started2 := true,
          reb := [], body21 := [TStep.work], body22 := [],
          log := [Ev.started 2, Ev.cleared 1, Ev.abortSignalled 1] }
        { current := some 2, aborted1 := true, aborted2 := false,
          t11 := .doneErr, t12 := .running [TStep.work],
          t21 := .running [], t22 := .running [],
          main1Done := true, main2Done := false, started2 := true,
          reb := [], body21 := [TStep.work], body22 := [],
          log := [Ev.mutated 2, Ev.started 2, Ev.cleared 1, Ev.abortSignalled 1] } :=
      SysStep.t21_step _ _ _ (TaskStep.work _)
    have h7 : SysStep
        { current := some 2, aborted1 := true, aborted2 := false,
          t11 := .doneErr, t12 := .running [TStep.work],
          t21 := .running [], t22 := .running [],
          main1Done := true, main2Done := false, started2 := true,
          reb := [], body21 := [TStep.work], body22 := [],
          log := [Ev.mutated 2, Ev.started 2, Ev.cleared 1, Ev.abortSignalled 1] }
        { current := some 2, aborted1 := true, aborted2 := false,
          t11 := .doneErr, t12 := .running [], t21 := .running [], t22 := .running [],
          main1Done := true, main2Done := false, started2 := true,
          reb := [], body21 := [TStep.work], body22 := [],
          log := [Ev.mutated 1, Ev.mutated 2, Ev.started 2, Ev.cleared 1,
            Ev.abortSignalled 1] } :=
      SysStep.t12_step _ _ _ (TaskStep.work _)
    exact ((((((Relation.ReflTransGen.refl.tail h1).tail h2).tail h3).tail h4).tail
      h5).tail h6).tail h7
  · intro hprop
    have := hprop [Ev.mutated 1, Ev.mutated 2, Ev.started 2] [Ev.abortSignalled 1] rfl
    simp at this
  · intro hprop
    have := hprop [Ev.mutated 1, Ev.mutated 2] [Ev.cleared 1, Ev.abortSignalled 1] rfl
    simp at this

end Builder
